import Mathlib

/-!
Shallow embedding of `crypto/objects/obj_dat.c` (OID registry and codec).

Conventions used throughout:
* C machine integers that hold NIDs are modelled as `Int` (`NID_undef = 0`).
* Byte strings (DER content octets, text buffers) are `List Nat`, each element
  a byte value; names (`sn`/`ln`) are `String`.
* The `added` lhash is modelled as an optional list of record ids (table order)
  together with a record heap `recs : Nat → AddedRec` and an object heap
  `objs : Nat → Obj`; a record's `obj` field is a pointer (heap index), which is
  what lets several records share one `ASN1_OBJECT`, exactly as in the source.
* Locks always succeed or fail according to an explicit `lockOk` parameter; an
  acquisition is attempted only when the corresponding `lock` argument is true,
  mirroring `ossl_obj_read_lock(lock)` / `ossl_obj_write_lock(lock)`.
* Allocation failures are injected through explicit boolean parameters
  (`dupOk`, `cellOk`, `newOk`, `insFail`); the claims under study quantify over
  them where relevant and assume success elsewhere.
-/

namespace ObjDat

/-- Error codes recorded through the thread-local error channel; one
constructor per `ERR_raise` reason code appearing in `obj_dat.c`. -/
inductive Err where
  | unableToGetReadLock
  | unableToGetWriteLock
  | cryptoLib
  | unknownNid
  | unknownObjectName
  | oidExists
  | passedInvalidArgument
  | asn1Lib
deriving DecidableEq

/-- Model of `ASN1_OBJECT`: `nid`, optional short/long name, optional DER
content octets (`data` is `none` when the C pointer is NULL), and the
ownership `flags` bit set.  The C `length` field is kept equal to the length
of the `data` buffer, so it is modelled as a derived quantity (`objLength`). -/
structure Obj where
  nid : Int
  sn : Option String
  ln : Option String
  data : Option (List Nat)
  flags : Nat
deriving DecidableEq

def defaultObj : Obj := ⟨0, none, none, none, 0⟩

instance : Inhabited Obj := ⟨defaultObj⟩

/-- The data bytes of an object (empty when the pointer is NULL). -/
def dataBytes (o : Obj) : List Nat := o.data.getD []

/-- The `length` field of an `ASN1_OBJECT`. -/
def objLength (o : Obj) : Nat := (dataBytes o).length

/-- `ASN1_OBJECT_FLAG_DYNAMIC | ASN1_OBJECT_FLAG_DYNAMIC_STRINGS |
ASN1_OBJECT_FLAG_DYNAMIC_DATA` = `0x01 | 0x04 | 0x08`. -/
def dynFlags : Nat := 13

/-- Model of `struct added_obj_st`: a tag (`type`) and a pointer into the
object heap. -/
structure AddedRec where
  type : Int
  obj : Nat
deriving DecidableEq

/-- Pointwise update of a heap. -/
def updFn {α : Type} (f : Nat → α) (i : Nat) (v : α) : Nat → α :=
  fun j => if j = i then v else f j

/-- Global mutable state of the registry: the `added` lhash (`none` models the
NULL pointer), the two heaps, fresh-id counters for the heaps, and the
`new_nid` NID allocator of `obj_new_nid_unlocked`. -/
structure RegState where
  added : Option (List Nat)
  recs : Nat → AddedRec
  objs : Nat → Obj
  nextRec : Nat
  nextObj : Nat
  newNid : Int

/-- The built-in table: `nid_objs` plus the three sorted index arrays
(`sn_objs`, `ln_objs`, `obj_objs`) of indices into `nid_objs`.  The table is
generated from `objects.txt` by `obj_dat.pl` and shipped as `obj_dat.h`. -/
structure BuiltinTable where
  nid_objs : List Obj
  sn_objs : List Nat
  ln_objs : List Nat
  obj_objs : List Nat

/-- `NUM_NID`. -/
def numNid (B : BuiltinTable) : Int := B.nid_objs.length

/-- `nid_objs[i]` (out-of-range reads yield the blank object). -/
def bNth (B : BuiltinTable) (i : Nat) : Obj := B.nid_objs.getD i defaultObj

/-- Zero test of `added_obj_cmp`.  The lhash uses the comparator only to
decide key equality, so only the zero/non-zero distinction is modelled:
equal `type` first, then per tag the relevant field of the pointed-to objects
(`ADDED_DATA` compares length then `memcmp` of the data, `ADDED_SNAME` /
`ADDED_LNAME` treat a NULL name as unequal to everything, `ADDED_NID`
compares `nid`; any other tag — such as the `-1` used for superseded
records — falls to the `default:` branch which returns 0, i.e. equal). -/
def addedObjEqb (a b : Int × Obj) : Bool :=
  if a.1 ≠ b.1 then false
  else if a.1 = 0 then decide (dataBytes a.2 = dataBytes b.2)
  else if a.1 = 1 then
    match a.2.sn, b.2.sn with
    | some x, some y => decide (x = y)
    | _, _ => false
  else if a.1 = 2 then
    match a.2.ln, b.2.ln with
    | some x, some y => decide (x = y)
    | _, _ => false
  else if a.1 = 3 then decide (a.2.nid = b.2.nid)
  else true

/-- Modelled from the spec (§4.3): `lh_ADDED_OBJ_retrieve` — `lhash.c` is not
part of src, and the spec specifies `retrieve(key) → record?`.  Returns the
(unique, by the lhash no-duplicate invariant) record whose tagged key equals
`key`; modelled as the first match in table order. -/
def lhRetrieve (recs : Nat → AddedRec) (objs : Nat → Obj) (tbl : List Nat)
    (key : Int × Obj) : Option Nat :=
  tbl.find? (fun rid => addedObjEqb ((recs rid).type, objs (recs rid).obj) key)

/-- Modelled from the spec (§4.3): `lh_ADDED_OBJ_insert` — `insert(record)`
replaces the record with an equal key if one exists (returning no error),
otherwise appends; an allocation failure (`fail = true`, only possible on the
fresh-node path) leaves the table unchanged and sets the error flag, which is
what `lh_ADDED_OBJ_error` reports. -/
def lhInsert (recs : Nat → AddedRec) (objs : Nat → Obj) (tbl : List Nat)
    (rid : Nat) (fail : Bool) : List Nat × Bool :=
  let key := ((recs rid).type, objs (recs rid).obj)
  match tbl.findIdx? (fun r => addedObjEqb ((recs r).type, objs (recs r).obj) key) with
  | some j => (tbl.set j rid, false)
  | none => if fail then (tbl, true) else (tbl ++ [rid], false)

/-- Modelled from the spec (§4.3): `lh_ADDED_OBJ_delete` — removes the record
whose key equals `key` (the first match in table order), if any. -/
def lhDelete (recs : Nat → AddedRec) (objs : Nat → Obj) (tbl : List Nat)
    (key : Int × Obj) : List Nat :=
  match tbl.findIdx? (fun r => addedObjEqb ((recs r).type, objs (recs r).obj) key) with
  | some j => tbl.eraseIdx j
  | none => tbl

/-- Modelled from the spec (§4.1): `OBJ_bsearch_sn` binary-searches `sn_objs`
(sorted by `strcmp` on the short name) for an entry whose short name equals
`s`.  `ossl_bsearch` (`crypto/bsearch.c`) is not part of src; on a table
sorted as specified, binary search returns a matching index exactly when one
exists, so the lookup is modelled as the first matching index. -/
def OBJ_bsearch_sn (B : BuiltinTable) (s : String) : Option Nat :=
  B.sn_objs.find? (fun i => (bNth B i).sn = some s)

/-- Modelled from the spec (§4.1): `OBJ_bsearch_ln`, as for `OBJ_bsearch_sn`. -/
def OBJ_bsearch_ln (B : BuiltinTable) (s : String) : Option Nat :=
  B.ln_objs.find? (fun i => (bNth B i).ln = some s)

/-- Zero test of `obj_cmp`: length first (`a->length - b->length`), then, for
non-empty data, `memcmp` over the (equal) length. -/
def objCmpEqb (a b : Obj) : Bool :=
  (objLength a == objLength b) &&
    ((objLength a == 0) || (dataBytes a == dataBytes b))

/-- Modelled from the spec (§4.1): `OBJ_bsearch_obj` binary-searches
`obj_objs` with the length-primary comparator `obj_cmp`; modelled as the
first matching index, as for the name tables. -/
def OBJ_bsearch_obj (B : BuiltinTable) (a : Obj) : Option Nat :=
  B.obj_objs.find? (fun i => objCmpEqb a (bNth B i))

/-- The stack-allocated probe key of the `ADDED_SNAME` lookups (`o.sn = s`,
every other field unread by the comparator). -/
def snKey (s : String) : Int × Obj := (1, { defaultObj with sn := some s })

/-- The probe key of the `ADDED_LNAME` lookups. -/
def lnKey (s : String) : Int × Obj := (2, { defaultObj with ln := some s })

/-- The probe key of the `ADDED_NID` lookups (`ob.nid = n`). -/
def nidKey (n : Int) : Int × Obj := (3, { defaultObj with nid := n })

/-- `OBJ_nid2obj`.  Fast path: `n == NID_undef` or a non-hole slot of the
built-in table (no locking).  Otherwise a read-locked probe of the added
index by the `ADDED_NID` tag; when nothing is found, `OBJ_R_UNKNOWN_NID` is
raised and NULL returned. -/
def OBJ_nid2obj (B : BuiltinTable) (st : RegState) (lockOk : Bool) (n : Int) :
    Option Obj × List Err :=
  if n = 0 ∨ (0 < n ∧ n < numNid B ∧ (bNth B n.toNat).nid ≠ 0) then
    (some (bNth B n.toNat), [])
  else if ¬lockOk then (none, [Err.unableToGetReadLock])
  else
    match st.added with
    | none => (none, [Err.unknownNid])
    | some tbl =>
      match lhRetrieve st.recs st.objs tbl (nidKey n) with
      | some rid => (some (st.objs (st.recs rid).obj), [])
      | none => (none, [Err.unknownNid])

/-- `OBJ_nid2sn`. -/
def OBJ_nid2sn (B : BuiltinTable) (st : RegState) (lockOk : Bool) (n : Int) :
    Option String × List Err :=
  match OBJ_nid2obj B st lockOk n with
  | (none, e) => (none, e)
  | (some ob, e) => (ob.sn, e)

/-- `OBJ_nid2ln`. -/
def OBJ_nid2ln (B : BuiltinTable) (st : RegState) (lockOk : Bool) (n : Int) :
    Option String × List Err :=
  match OBJ_nid2obj B st lockOk n with
  | (none, e) => (none, e)
  | (some ob, e) => (ob.ln, e)

/-- `OBJ_sn2nid`: built-in binary search first, then a read-locked probe of
the added index by the `ADDED_SNAME` tag; a miss returns `NID_undef` without
raising. -/
def OBJ_sn2nid (B : BuiltinTable) (st : RegState) (lockOk : Bool) (s : String) :
    Int × List Err :=
  match OBJ_bsearch_sn B s with
  | some i => ((bNth B i).nid, [])
  | none =>
    if ¬lockOk then (0, [Err.unableToGetReadLock])
    else
      match st.added with
      | none => (0, [])
      | some tbl =>
        match lhRetrieve st.recs st.objs tbl (snKey s) with
        | some rid => ((st.objs (st.recs rid).obj).nid, [])
        | none => (0, [])

/-- `OBJ_ln2nid`, as `OBJ_sn2nid` with the `ADDED_LNAME` tag. -/
def OBJ_ln2nid (B : BuiltinTable) (st : RegState) (lockOk : Bool) (s : String) :
    Int × List Err :=
  match OBJ_bsearch_ln B s with
  | some i => ((bNth B i).nid, [])
  | none =>
    if ¬lockOk then (0, [Err.unableToGetReadLock])
    else
      match st.added with
      | none => (0, [])
      | some tbl =>
        match lhRetrieve st.recs st.objs tbl (lnKey s) with
        | some rid => ((st.objs (st.recs rid).obj).nid, [])
        | none => (0, [])

/-- `ossl_obj_obj2nid`: NULL and preset-`nid` fast paths, empty data returns
`NID_undef`, then built-in binary search by DER, then a (conditionally)
read-locked probe of the added index by the `ADDED_DATA` tag.  A miss returns
`NID_undef` without raising. -/
def ossl_obj_obj2nid (B : BuiltinTable) (st : RegState) (a : Option Obj)
    (lock lockOk : Bool) : Int × List Err :=
  match a with
  | none => (0, [])
  | some a =>
    if a.nid ≠ 0 then (a.nid, [])
    else if objLength a = 0 then (0, [])
    else
      match OBJ_bsearch_obj B a with
      | some i => ((bNth B i).nid, [])
      | none =>
        if lock ∧ ¬lockOk then (0, [Err.unableToGetReadLock])
        else
          match st.added with
          | none => (0, [])
          | some tbl =>
            match lhRetrieve st.recs st.objs tbl (0, a) with
            | some rid => ((st.objs (st.recs rid).obj).nid, [])
            | none => (0, [])

/-- `OBJ_obj2nid`. -/
def OBJ_obj2nid (B : BuiltinTable) (st : RegState) (lockOk : Bool) (a : Obj) :
    Int × List Err :=
  ossl_obj_obj2nid B st (some a) true lockOk

/-!
The sub-identifier scanner of `OBJ_obj2txt` (the inner `for (;;)` loop).

The C code accumulates into an `unsigned long l`, promoting to a `BIGNUM`
*before* any precision could be lost (`l > ULONG_MAX >> 7` is checked before
`l <<= 7`, and `l |= c & 0x7f` sets only the seven bits that the shift just
cleared, so it is exact addition); thereafter `BN_lshift`/`BN_add_word`
perform the same arithmetic without bound.  Both paths therefore compute the
exact value `v = v * 128 + (c & 0x7f)` per byte, which is what is modelled
here over `Nat` (`c & 0x7f` is `c % 128` and `(c & 0x80) == 0` is `c < 128`
for byte values).  BN allocation failures are assumed not to occur.
-/

/-- The sub-identifier values encoded by a byte string, carrying the partial
accumulator of the current sub-identifier (`acc` is the already-shifted high
part, zero at each sub-identifier boundary); `none` when a final byte still
has its continuation bit set (`len--; if (len == 0 && (c & 0x80) != 0) goto
err;`).  The `while (len > 0)` / `for (;;)` nesting of the source is
linearized into one recursion over the bytes so that the definition reduces
by iota. -/
def decodeGo (acc : Nat) : List Nat → Option (List Nat)
  | [] => some []
  | c :: rest =>
    if rest = [] ∧ 128 ≤ c then none
    else if c < 128 then (decodeGo 0 rest).map (fun vs => (acc + c % 128) :: vs)
    else decodeGo ((acc + c % 128) * 128) rest

/-- The sequence of sub-identifier values of a DER byte string. -/
def decodeSubIds (p : List Nat) : Option (List Nat) := decodeGo 0 p

/-- Modelled from the spec: the decimal digit recursion — `fuel` bounds the
recursion depth so that the definition is structural (any `fuel ≥ n` gives
the mathematical digits, see `decReprF_congr`). -/
def decReprF : Nat → Nat → List Nat
  | 0, n => [48 + n % 10]
  | fuel + 1, n => if n < 10 then [48 + n] else decReprF fuel (n / 10) ++ [48 + n % 10]

/-- Modelled from the spec: the decimal formatting of an arc — stands in for
`BIO_snprintf(tbuf, …, ".%lu", l)` and `BN_bn2dec` (in `crypto/bio` and
`crypto/bn`, outside src), which emit the usual base-10 digits. -/
def decRepr (n : Nat) : List Nat := decReprF n n

theorem decReprF_congr : ∀ (f1 : Nat), ∀ {f2 n : Nat}, n ≤ f1 → n ≤ f2 →
    decReprF f1 n = decReprF f2 n := by
  intro f1
  induction f1 with
  | zero =>
    intro f2 n h1 h2
    have hn : n = 0 := Nat.le_zero.mp h1
    subst hn
    cases f2 with
    | zero => rfl
    | succ f2 => simp [decReprF]
  | succ f1 ih =>
    intro f2 n h1 h2
    cases f2 with
    | zero =>
      have hn : n = 0 := Nat.le_zero.mp h2
      subst hn
      simp [decReprF]
    | succ f2 =>
      by_cases hn : n < 10
      · simp [decReprF, hn]
      · have hd : n / 10 < n := Nat.div_lt_self (by omega) (by norm_num)
        simp only [decReprF, if_neg hn]
        rw [ih (show n / 10 ≤ f1 by omega) (show n / 10 ≤ f2 by omega)]

/-- The defining recursion of `decRepr`, as the source writes it. -/
theorem decRepr_eq (n : Nat) :
    decRepr n = if n < 10 then [48 + n] else decRepr (n / 10) ++ [48 + n % 10] := by
  by_cases hn : n < 10
  · cases n with
    | zero => simp [decRepr, decReprF, hn]
    | succ m => simp [decRepr, decReprF, hn]
  · have hd : n / 10 < n := Nat.div_lt_self (by omega) (by norm_num)
    rw [if_neg hn, decRepr, decRepr]
    cases hn2 : n with
    | zero => omega
    | succ m =>
      rw [decReprF, if_neg (hn2 ▸ hn)]
      rw [decReprF_congr m (show (m + 1) / 10 ≤ m by omega)
        (show (m + 1) / 10 ≤ (m + 1) / 10 from Nat.le_refl _)]

/-- In-place write of a run of bytes at an offset (writes past the end of the
buffer are dropped, which never happens on the paths the code takes). -/
def writeList (buf : List Nat) (off : Nat) : List Nat → List Nat
  | [] => buf
  | v :: vs => writeList (buf.set off v) (off + 1) vs

/-- Modelled from the spec: `OPENSSL_strlcpy` (`crypto/o_str.c`, outside src)
copies at most `rem - 1` bytes of `src` and always NUL-terminates the
destination when `rem > 0` ("Buffer is always null-terminated when capacity
permits"). -/
def strlcpyAt (buf : List Nat) (off rem : Nat) (src : List Nat) : List Nat :=
  if rem = 0 then buf else writeList buf off (src.take (rem - 1) ++ [0])

/-- The cursor state of the dotted-form emitter of `OBJ_obj2txt`: the whole
buffer, the write offset (`buf` pointer minus its base), the remaining
capacity (`buf_len`) and the accumulated would-write length (`n`). -/
structure TxtSt where
  buf : List Nat
  off : Nat
  rem : Nat
  n : Nat
deriving DecidableEq

/-- Emission of one (non-initial) arc value: format `".%lu"`, copy with
truncation, advance cursor, and add the full arc length to `n` regardless of
truncation.  The `use_bn` branch differs from the word branch only in writing
the dot separately before the digits; both leave the same bytes and the same
`n` (the dot is counted by the separate `n++` there), so one emitter models
both. -/
def emitArc (bufp : Bool) (s : TxtSt) (l : Nat) : TxtSt :=
  let tbuf := 46 :: decRepr l
  let i := tbuf.length
  let s1 :=
    if bufp ∧ 0 < s.rem then
      let buf1 := strlcpyAt s.buf s.off s.rem tbuf
      if s.rem < i then { s with buf := buf1, off := s.off + s.rem, rem := 0 }
      else { s with buf := buf1, off := s.off + i, rem := s.rem - i }
    else s
  { s1 with n := s1.n + i }

/-- The split of the first sub-identifier: `l >= 80` gives arc `2` and
remainder `l - 80`, otherwise arcs `l / 40` and `l - (l / 40) * 40`.  In the
`use_bn` case the stale word `l` is necessarily `> ULONG_MAX >> 7 ≥ 80` and
so is the exact value, so testing the exact value is faithful. -/
def firstSplit (v : Nat) : Nat × Nat :=
  if 80 ≤ v then (2, v - 80) else (v / 40, v - (v / 40) * 40)

/-- The `first` block of the emission loop: write the single leading digit
(`i + '0'`) and a NUL when more than one byte of capacity remains, count one
character, and hand the remainder `l` to the ordinary arc emitter. -/
def emitFirst (bufp : Bool) (s : TxtSt) (v : Nat) : TxtSt × Nat :=
  let i := (firstSplit v).1
  let l := (firstSplit v).2
  let s1 :=
    if bufp ∧ 1 < s.rem then
      { s with buf := (s.buf.set s.off (48 + i)).set (s.off + 1) 0,
               off := s.off + 1, rem := s.rem - 1 }
    else s
  ({ s1 with n := s1.n + 1 }, l)

/-- The `while (len > 0)` loop of `OBJ_obj2txt`: accumulate the current
sub-identifier byte by byte (`acc` as in `decodeGo`), fail with `-1` on a
truncated final sub-identifier (leaving the buffer as already written), emit
each completed value, and on exhaustion return `n`. -/
def obj2txtGo (bufp : Bool) (s : TxtSt) (first : Bool) (acc : Nat) :
    List Nat → TxtSt × Int
  | [] => (s, (s.n : Int))
  | c :: rest =>
    if rest = [] ∧ 128 ≤ c then (s, -1)
    else if c < 128 then
      if first then
        let p := emitFirst bufp s (acc + c % 128)
        obj2txtGo bufp (emitArc bufp p.1 p.2) false 0 rest
      else obj2txtGo bufp (emitArc bufp s (acc + c % 128)) false 0 rest
    else obj2txtGo bufp s first ((acc + c % 128) * 128) rest

/-- ASCII bytes of a name string. -/
def strBytes (s : String) : List Nat := s.data.map Char.toNat

/-- The registered-name path of `OBJ_obj2txt`: when `no_name` is unset and
the object resolves to a NID, the long name, falling back to the short name;
`none` when the dotted form must be emitted instead. -/
def obj2txtName (B : BuiltinTable) (st : RegState) (lockOk : Bool) (ob : Obj)
    (no_name : Bool) : Option String :=
  if ¬no_name ∧ (OBJ_obj2nid B st lockOk ob).1 ≠ 0 then
    match (OBJ_nid2ln B st lockOk (OBJ_obj2nid B st lockOk ob).1).1 with
    | some s => some s
    | none => (OBJ_nid2sn B st lockOk (OBJ_obj2nid B st lockOk ob).1).1
  else none

/-- `OBJ_obj2txt`.  `bufp` is whether `buf` is non-NULL, `cap` is `buf_len`,
`buf0` the initial contents of the caller's buffer.  Returns the final buffer
contents and the return value (`-1` on error, otherwise the full length of
the untruncated output). -/
def OBJ_obj2txt (B : BuiltinTable) (st : RegState) (lockOk : Bool)
    (bufp : Bool) (cap : Nat) (buf0 : List Nat)
    (a : Option Obj) (no_name : Bool) : List Nat × Int :=
  let buf1 := if bufp ∧ 0 < cap then buf0.set 0 0 else buf0
  match a with
  | none => (buf1, 0)
  | some ob =>
    match ob.data with
    | none => (buf1, 0)
    | some d =>
      match obj2txtName B st lockOk ob no_name with
      | some s =>
        (if bufp then strlcpyAt buf1 0 cap (strBytes s) else buf1,
         ((strBytes s).length : Int))
      | none =>
        if 586 < d.length then (buf1, -1)
        else
          let r := obj2txtGo bufp ⟨buf1, 0, cap, 0⟩ true 0 d
          (r.1.buf, r.2)

/-- The arcs of the dotted form: the first sub-identifier split in two, the
rest unchanged. -/
def splitFirst : List Nat → List Nat
  | [] => []
  | v :: vs => (firstSplit v).1 :: (firstSplit v).2 :: vs

/-- The dotted decimal rendering of a list of arcs. -/
def dottedBytes : List Nat → List Nat
  | [] => []
  | a :: rest => decRepr a ++ (rest.map (fun v => 46 :: decRepr v)).flatten

/-- The untruncated output of `OBJ_obj2txt` on an object with data present:
the registered name when the name path is taken, otherwise the dotted form;
`none` exactly when the call returns `-1`. -/
def obj2txtFullOut (B : BuiltinTable) (st : RegState) (lockOk : Bool)
    (ob : Obj) (no_name : Bool) : Option (List Nat) :=
  match ob.data with
  | none => none
  | some d =>
    match obj2txtName B st lockOk ob no_name with
    | some s => some (strBytes s)
    | none =>
      if 586 < d.length then none
      else (decodeSubIds d).map (fun vs => dottedBytes (splitFirst vs))

/-! Character classification (`crypto/ctype.c` implements the usual ASCII
classes; the values are forced by the line grammar in the spec). -/

/-- The first byte of a C string (`buf[0]` / `*s`), NUL when empty. -/
def headChar : List Char → Char
  | [] => Char.ofNat 0
  | ch :: _ => ch

/-- `ossl_isdigit`. -/
def isDigitC (c : Char) : Bool := 48 ≤ c.toNat && c.toNat ≤ 57

/-- `ossl_isalnum`. -/
def isAlnumC (c : Char) : Bool :=
  isDigitC c || (65 ≤ c.toNat && c.toNat ≤ 90) || (97 ≤ c.toNat && c.toNat ≤ 122)

/-- `ossl_isspace`. -/
def isSpaceC (c : Char) : Bool := c.toNat = 32 || (9 ≤ c.toNat && c.toNat ≤ 13)

/-! The text → DER encoder.  `a2d_ASN1_OBJECT` (with the DER framing helpers
and `d2i_ASN1_OBJECT`) lives in `crypto/asn1/a_object.c`, outside src, so it
is modelled from the spec §4.2.1. -/

/-- Split a character list on `'.'`. -/
def splitDots : List Char → List (List Char)
  | [] => [[]]
  | c :: cs =>
    if c = '.' then [] :: splitDots cs
    else
      match splitDots cs with
      | t :: ts => (c :: t) :: ts
      | [] => [[c]]

/-- A single arc: non-empty, all digits, decimal value (arbitrary magnitude). -/
def arcVal (t : List Char) : Option Nat :=
  if t = [] ∨ ¬(t.all isDigitC = true) then none
  else some (t.foldl (fun a c => a * 10 + (c.toNat - 48)) 0)

/-- Big-endian base-128 groups of `v` (minimal, so a single `0` for zero);
structural on a fuel bound, as for `decReprF`. -/
def base7F : Nat → Nat → List Nat
  | 0, v => [v % 128]
  | fuel + 1, v => if v < 128 then [v] else base7F fuel (v / 128) ++ [v % 128]

/-- Big-endian base-128 groups of `v`. -/
def base7 (v : Nat) : List Nat := base7F v v

/-- Base-128 encoding of one sub-identifier: continuation bit on every group
except the last. -/
def base128Enc (v : Nat) : List Nat :=
  let gs := base7 v
  gs.dropLast.map (· + 128) ++ [gs.getLastD 0]

/-- Modelled from the spec (§4.2.1): `Codec.text_to_der`, standing in for
`a2d_ASN1_OBJECT`.  Parse dot-separated arcs; the first two combine into
`v0 = 40·a + b` subject to `a ≤ 2` and `b < 40` when `a < 2`; every
sub-identifier is emitted in base 128; fewer than two arcs, any malformed
arc, or more than 586 output bytes reject the text. -/
def text_to_der (s : String) : Option (List Nat) :=
  match (splitDots s.data).mapM arcVal with
  | none => none
  | some arcs =>
    match arcs with
    | a :: b :: rest =>
      if 2 < a then none
      else if a < 2 ∧ 40 ≤ b then none
      else
        let der := base128Enc (40 * a + b) ++ (rest.map base128Enc).flatten
        if 586 < der.length then none else some der
    | _ => none

/-- Modelled from the spec (§4.4): the "wrap the result" step of
`text_to_obj` — the `d2i_ASN1_OBJECT` round trip (outside src) builds a fresh
dynamic object carrying the DER content octets and no NID or names. -/
def wrapDer (d : List Nat) : Obj :=
  { nid := 0, sn := none, ln := none, data := some d, flags := 9 }

/-- The dotted-form branch shared by both sides of `OBJ_txt2obj`: encode via
the codec and wrap (the error channel of the asn1 library is not part of the
registry's, so a codec failure adds nothing here). -/
def txt2objCodec (s : String) (es : List Err) : Option Obj × List Err :=
  match text_to_der s with
  | none => (none, es)
  | some d => (some (wrapDer d), es)

/-- `OBJ_txt2obj`: with `no_name` unset, try the short then the long name and
return the registered entry on a hit; otherwise the string must begin with a
digit (else `OBJ_R_UNKNOWN_OBJECT_NAME`) and is parsed as dotted decimal. -/
def OBJ_txt2obj (B : BuiltinTable) (st : RegState) (lockOk : Bool)
    (s : String) (no_name : Bool) : Option Obj × List Err :=
  if ¬no_name then
    let p1 := OBJ_sn2nid B st lockOk s
    if p1.1 ≠ 0 then
      let r := OBJ_nid2obj B st lockOk p1.1
      (r.1, p1.2 ++ r.2)
    else
      let p2 := OBJ_ln2nid B st lockOk s
      if p2.1 ≠ 0 then
        let r := OBJ_nid2obj B st lockOk p2.1
        (r.1, p1.2 ++ p2.2 ++ r.2)
      else if ¬isDigitC (headChar s.data) then
        (none, p1.2 ++ p2.2 ++ [Err.unknownObjectName])
      else txt2objCodec s (p1.2 ++ p2.2)
  else txt2objCodec s []

/-! `ossl_obj_add_object`: the four-record multi-index insert. -/

/-- Modelled from the spec: `OBJ_dup` (`crypto/objects/obj_lib.c`, outside
src) deep-copies the object into a heap-owned entry whose buffers are owned,
i.e. with the three dynamic flags set. -/
def objDup (o : Obj) : Obj := { o with flags := o.flags ||| dynFlags }

/-- Which of the four cells `ao[ADDED_DATA..ADDED_NID]` are allocated:
`ADDED_NID` always, `ADDED_DATA` when `o->length != 0 && obj->data != NULL`,
`ADDED_SNAME`/`ADDED_LNAME` when the respective name is present. -/
def cellPresent (o : Obj) : Nat → Bool
  | 0 => decide (objLength o ≠ 0) && o.data.isSome
  | 1 => o.sn.isSome
  | 2 => o.ln.isSome
  | 3 => true
  | _ => false

/-- The rollback loop `while (i-- > ADDED_DATA)`: delete `ao[j]` from the
table, then restore the superseded record's tag, for `j` descending.  The
loop does not skip absent cells: for those, `ao[j]` is NULL, and
`lh_ADDED_OBJ_delete` hashes the key with `added_obj_hash`, which immediately
dereferences it (`a = ca->obj`); that NULL dereference is the `none` result. -/
def rollback (objs : Nat → Obj) (o : Obj) (aops : Nat → Option Nat) :
    (Nat → AddedRec) → List Nat → List Nat → Option ((Nat → AddedRec) × List Nat)
  | recs, tbl, [] => some (recs, tbl)
  | recs, tbl, j :: js =>
    if cellPresent o j then
      let tbl1 := lhDelete recs objs tbl (j, o)
      let recs1 :=
        match aops j with
        | some prid => updFn recs prid { recs prid with type := j }
        | none => recs
      rollback objs o aops recs1 tbl1 js
    else none

/-- The insert loop `for (i = ADDED_DATA; i <= ADDED_NID; i++)`: for each
present cell, set its tag and pointer, retrieve and invalidate any record
with the same key (`aop[i]->type = -1`), insert, and on a container error
restore `aop[i]` and roll back all earlier steps.  Returns the updated record
heap, the table, and whether the whole insert succeeded; `none` models the
NULL dereference inside the rollback. -/
def addLoop (objs : Nat → Obj) (o : Obj) (oId : Nat) (insFail : Nat → Bool)
    (cellRid : Nat → Nat) :
    (Nat → AddedRec) → List Nat → (Nat → Option Nat) → List Nat →
    Option ((Nat → AddedRec) × List Nat × Bool)
  | recs, tbl, _, [] => some (recs, tbl, true)
  | recs, tbl, aops, i :: is =>
    if cellPresent o i then
      let rid := cellRid i
      let recs1 := updFn recs rid ⟨(i : Int), oId⟩
      let aop := lhRetrieve recs1 objs tbl ((i : Int), o)
      let recs2 :=
        match aop with
        | some prid => updFn recs1 prid { recs1 prid with type := -1 }
        | none => recs1
      let ins := lhInsert recs2 objs tbl rid (insFail i)
      if ins.2 then
        let recs3 :=
          match aop with
          | some prid => updFn recs2 prid { recs2 prid with type := (i : Int) }
          | none => recs2
        match rollback objs o aops recs3 ins.1 (List.range i).reverse with
        | some p => some (p.1, p.2, false)
        | none => none
      else addLoop objs o oId insFail cellRid recs2 ins.1 (updFn aops i aop) is
    else addLoop objs o oId insFail cellRid recs tbl aops is

/-- `ossl_obj_add_object`.  Failure injection: `dupOk` for `OBJ_dup`,
`cellOk` for the four `OPENSSL_malloc` cell allocations, `newOk` for
`lh_ADDED_OBJ_new`, `insFail i` for the lhash insert of cell `i`.  Returns
`none` when the rollback dereferences a NULL cell, otherwise the new state,
the return value (`NID_undef = 0` on failure, the new object's nid on
success) and the raised errors. -/
def ossl_obj_add_object (st : RegState) (obj : Obj) (lock lockOk : Bool)
    (dupOk cellOk newOk : Bool) (insFail : Nat → Bool) :
    Option (RegState × Int × List Err) :=
  if ¬dupOk then some (st, 0, [])
  else
    let o := objDup obj
    let oId := st.nextObj
    let st1 : RegState :=
      { st with objs := updFn st.objs oId o, nextObj := oId + 1,
                nextRec := st.nextRec + 4 }
    let cellRid : Nat → Nat := fun i => st.nextRec + i
    if ¬cellOk then some (st1, 0, [])
    else if lock ∧ ¬lockOk then some (st1, 0, [Err.unableToGetWriteLock])
    else
      let tbl0? : Option (List Nat) :=
        match st.added with
        | none => if newOk then some [] else none
        | some tbl => some tbl
      match tbl0? with
      | none => some (st1, 0, [Err.cryptoLib])
      | some tbl0 =>
        match addLoop st1.objs o oId insFail cellRid st1.recs tbl0
            (fun _ => none) [0, 1, 2, 3] with
        | none => none
        | some (recs1, tbl1, ok) =>
          if ok then
            let o2 := { o with flags := o.flags - (o.flags &&& dynFlags) }
            some ({ st1 with added := some tbl1, recs := recs1,
                             objs := updFn st1.objs oId o2 },
                  o.nid, [])
          else
            some ({ st1 with added := some tbl1, recs := recs1 }, 0,
                  [Err.cryptoLib])

/-- `obj_new_nid_unlocked(num)`: fetch-and-add on the `new_nid` counter. -/
def obj_new_nid_unlocked (st : RegState) (num : Int) : RegState × Int :=
  ({ st with newNid := st.newNid + num }, st.newNid)

/-- `ASN1_OBJECT_new()`: a blank dynamic object. -/
def asn1ObjectNew : Obj := { nid := 0, sn := none, ln := none, data := none, flags := 1 }

/-- The short-circuit name check `name != NULL && lookup(name) != NID_undef`
of `OBJ_create`: resolve an optional name, a NULL name resolving to nothing. -/
def resolveName (f : String → Int × List Err) : Option String → Int × List Err
  | some s => f s
  | none => (0, [])

/-- `OBJ_create(oid, sn, ln)`: reject all-NULL input; fail with
`OBJ_R_OID_EXISTS` when `sn` or `ln` already resolves; build `tmpoid` from
the dotted text (or a blank object when `oid` is NULL); under the write lock
fail with `OBJ_R_OID_EXISTS` when the parsed DER is already known; otherwise
allocate a fresh NID, attach the caller's names, and run the multi-index
insert.  Returns `none` on the rollback NULL dereference. -/
def OBJ_create (B : BuiltinTable) (st : RegState) (lockOk : Bool)
    (dupOk cellOk newOk : Bool) (insFail : Nat → Bool)
    (oid sn ln : Option String) : Option (RegState × Int × List Err) :=
  if oid = none ∧ sn = none ∧ ln = none then
    some (st, 0, [Err.passedInvalidArgument])
  else
    let snP := resolveName (OBJ_sn2nid B st lockOk) sn
    if snP.1 ≠ 0 then some (st, 0, snP.2 ++ [Err.oidExists])
    else
      let lnP := resolveName (OBJ_ln2nid B st lockOk) ln
      if lnP.1 ≠ 0 then some (st, 0, snP.2 ++ lnP.2 ++ [Err.oidExists])
      else
        let es0 := snP.2 ++ lnP.2
        let tmP : Option Obj × List Err :=
          match oid with
          | some o => OBJ_txt2obj B st lockOk o true
          | none => (some asn1ObjectNew, [])
        match tmP.1 with
        | none => some (st, 0, es0 ++ tmP.2)
        | some tmpoid =>
          let es1 := es0 ++ tmP.2
          if ¬lockOk then some (st, 0, es1 ++ [Err.unableToGetWriteLock])
          else if oid ≠ none ∧ (ossl_obj_obj2nid B st (some tmpoid) false lockOk).1 ≠ 0 then
            some (st, 0, es1 ++ [Err.oidExists])
          else
            let p := obj_new_nid_unlocked st 1
            if p.2 = 0 then some (p.1, 0, es1)
            else
              let tmpoid2 := { tmpoid with nid := p.2, sn := sn, ln := ln }
              match ossl_obj_add_object p.1 tmpoid2 false lockOk dupOk cellOk
                  newOk insFail with
              | none => none
              | some (st2, ok, e2) => some (st2, ok, es1 ++ e2)

/-! The shutdown sweep `ossl_obj_cleanup_int`: three `lh_ADDED_OBJ_doall`
passes over the records (the lhash visits every record exactly once; the
visit order is the table-order list). -/

/-- `cleanup1_doall`: zero the shared object's `nid` and mark every buffer
owned so that the eventual free releases them. -/
def cleanup1_doall (recs : Nat → AddedRec) (objs : Nat → Obj) (rid : Nat) :
    Nat → Obj :=
  let oid := (recs rid).obj
  updFn objs oid { objs oid with nid := 0, flags := (objs oid).flags ||| dynFlags }

/-- Pass 1 over all records. -/
def pass1 (recs : Nat → AddedRec) (tbl : List Nat) (objs : Nat → Obj) :
    Nat → Obj :=
  tbl.foldl (cleanup1_doall recs) objs

/-- `cleanup2_doall`: increment the shared object's `nid`. -/
def cleanup2_doall (recs : Nat → AddedRec) (objs : Nat → Obj) (rid : Nat) :
    Nat → Obj :=
  let oid := (recs rid).obj
  updFn objs oid { objs oid with nid := (objs oid).nid + 1 }

/-- Pass 2 over all records. -/
def pass2 (recs : Nat → AddedRec) (tbl : List Nat) (objs : Nat → Obj) :
    Nat → Obj :=
  tbl.foldl (cleanup2_doall recs) objs

/-- The state threaded through pass 3: the object heap, the object ids freed
by `ASN1_OBJECT_free` (in order), and the number of record cells freed. -/
structure CleanSt where
  objs : Nat → Obj
  freed : List Nat
  freedRecs : Nat

/-- `cleanup3_doall`: decrement the shared object's `nid`; free the object
when it reaches zero; always free the record cell. -/
def cleanup3_doall (recs : Nat → AddedRec) (s : CleanSt) (rid : Nat) : CleanSt :=
  let oid := (recs rid).obj
  let v := (s.objs oid).nid - 1
  { objs := updFn s.objs oid { s.objs oid with nid := v },
    freed := if v = 0 then s.freed ++ [oid] else s.freed,
    freedRecs := s.freedRecs + 1 }

/-- Pass 3 over all records. -/
def pass3 (recs : Nat → AddedRec) (tbl : List Nat) (objs : Nat → Obj) : CleanSt :=
  tbl.foldl (cleanup3_doall recs) ⟨objs, [], 0⟩

/-- The number of index records referencing object `o`. -/
def refCount (recs : Nat → AddedRec) (tbl : List Nat) (o : Nat) : Nat :=
  (tbl.filter (fun rid => (recs rid).obj = o)).length

/-- `ossl_obj_cleanup_int`: the three passes, then the table itself and the
locks are destroyed. -/
def ossl_obj_cleanup_int (st : RegState) : RegState × CleanSt :=
  match st.added with
  | none => (st, ⟨st.objs, [], 0⟩)
  | some tbl =>
    let o1 := pass1 st.recs tbl st.objs
    let o2 := pass2 st.recs tbl o1
    let c := pass3 st.recs tbl o2
    ({ st with added := none, objs := c.objs }, c)

/-! `OBJ_create_objects`: the line-oriented bulk loader.  `BIO_gets` is the
line source (outside src): each element of the input list is the content that
one `BIO_gets` call leaves in `buf` (at least one byte; an empty list element
models `i <= 0`, i.e. end of input).  `buf[i - 1] = '\0'` drops the final
byte (normally the newline), hence the `dropLast`.  The local `char *l` is
initialized to NULL once and is *not* reset per iteration: when a line has no
`sn` field, `l` retains its previous value, which then points into the
overwritten line buffer; such a call receives the `staleLn` marker, whose
contents the model leaves unspecified. -/

/-- The `ln` argument handed to `OBJ_create`. -/
inductive LnArg where
  | nullLn
  | freshLn (s : List Char)
  | staleLn
deriving DecidableEq

/-- The three arguments of one `OBJ_create` call made by the loader. -/
structure CreateArgs where
  oid : List Char
  sn : Option (List Char)
  ln : LnArg
deriving DecidableEq

/-- The pointer walk over one NUL-stripped line: the oid token is the maximal
run of digits and dots; if a terminator character follows it is overwritten
by NUL and skipped; spaces are skipped; the `sn` token runs to the next
space; if anything follows, it is NUL-split off and, after further spaces,
the remainder of the line is `ln`.  `prevL` says whether `l` currently holds
a (now dangling) non-NULL pointer from a previous iteration.  Returns the
argument triple and the new `prevL`. -/
def parseLine (c : List Char) (prevL : Bool) : CreateArgs × Bool :=
  let o := c.takeWhile (fun ch => isDigitC ch || ch = '.')
  let keepL : LnArg := if prevL then .staleLn else .nullLn
  match c.drop o.length with
  | [] => (⟨o, none, keepL⟩, prevL)
  | _ :: after =>
    match after.dropWhile isSpaceC with
    | [] => (⟨o, none, keepL⟩, prevL)
    | d :: ds =>
      let sn := (d :: ds).takeWhile (fun ch => ¬isSpaceC ch)
      match (d :: ds).drop sn.length with
      | [] => (⟨o, some sn, .nullLn⟩, false)
      | _ :: lafter =>
        match lafter.dropWhile isSpaceC with
        | [] => (⟨o, some sn, .nullLn⟩, false)
        | e :: es => (⟨o, some sn, .freshLn (e :: es)⟩, true)

/-- `OBJ_create_objects`, abstracted over the `OBJ_create` call (`create`
threads a state of type `σ` and reports success).  Returns the final state,
the returned count, and the trace of `create` results in call order. -/
def OBJ_create_objects {σ : Type} (create : σ → CreateArgs → σ × Bool) :
    σ → Bool → List (List Char) → σ × Nat × List Bool
  | s, _, [] => (s, 0, [])
  | s, prevL, l :: rest =>
    if l = [] then (s, 0, [])
    else
      let c := l.dropLast
      if ¬isAlnumC (headChar c) then (s, 0, [])
      else
        let pr := parseLine c prevL
        if pr.1.oid = [] then (s, 0, [])
        else
          let cr := create s pr.1
          if cr.2 then
            let r := OBJ_create_objects create cr.1 pr.2 rest
            (r.1, r.2.1 + 1, true :: r.2.2)
          else (cr.1, 0, [false])

/-- A line on which the loader makes an `OBJ_create` call: non-empty as read,
and its NUL-stripped content starts with a digit (a non-alphanumeric first
byte stops the loader at the `ossl_isalnum` check, and an alphabetic first
byte yields an empty oid token, which stops it at the `*o == '\0'` check). -/
def wfLine (l : List Char) : Bool :=
  (l != []) && isDigitC (headChar l.dropLast)

/-! General-purpose facts about buffer writes. -/

theorem writeList_length (xs : List Nat) : ∀ (buf : List Nat) (off : Nat),
    (writeList buf off xs).length = buf.length := by
  induction xs with
  | nil => intro buf off; rfl
  | cons v vs ih =>
    intro buf off
    rw [writeList, ih, List.length_set]

theorem getD_set (l : List Nat) (i j v d : Nat) :
    (l.set i v).getD j d = if i = j ∧ j < l.length then v else l.getD j d := by
  rw [List.getD_eq_getElem?_getD, List.getD_eq_getElem?_getD, List.getElem?_set]
  by_cases hij : i = j
  · subst hij
    by_cases hl : i < l.length <;> simp [hl, List.getElem?_eq_none, Nat.le_of_not_lt]
  · simp [hij]

theorem writeList_getD (xs : List Nat) : ∀ (buf : List Nat) (off j d : Nat),
    (writeList buf off xs).getD j d =
      if off ≤ j ∧ j < off + xs.length ∧ j < buf.length then xs.getD (j - off) d
      else buf.getD j d := by
  induction xs with
  | nil =>
    intro buf off j d
    rw [writeList, if_neg (by simp only [List.length_nil]; omega)]
  | cons v vs ih =>
    intro buf off j d
    rw [writeList, ih, List.length_set, List.length_cons]
    by_cases h2 : off + 1 ≤ j ∧ j < off + 1 + vs.length ∧ j < buf.length
    · rw [if_pos h2, if_pos (by omega)]
      have hj : j - off = (j - (off + 1)) + 1 := by omega
      rw [hj, List.getD_cons_succ]
    · rw [if_neg h2, getD_set]
      by_cases h1 : off = j ∧ j < buf.length
      · rw [if_pos h1, if_pos (by omega)]
        have hj : j - off = 0 := by omega
        rw [hj, List.getD_cons_zero]
      · rw [if_neg h1, if_neg (by omega)]

theorem writeList_splice (xs : List Nat) : ∀ (buf : List Nat) (off : Nat),
    off + xs.length ≤ buf.length →
    writeList buf off xs = buf.take off ++ xs ++ buf.drop (off + xs.length) := by
  induction xs with
  | nil => intro buf off _; simp [writeList]
  | cons v vs ih =>
    intro buf off h
    have hoff : off < buf.length := by simp [List.length_cons] at h; omega
    rw [writeList, ih _ _ (by simp [List.length_set, List.length_cons] at h ⊢; omega)]
    rw [List.set_eq_take_append_cons_drop, if_pos hoff]
    have e1 : List.take off buf ++ v :: List.drop (off + 1) buf
        = (List.take off buf ++ [v]) ++ List.drop (off + 1) buf := by simp
    have hlen : (List.take off buf ++ [v]).length = off + 1 := by
      simp [List.length_take, Nat.min_eq_left (Nat.le_of_lt hoff)]
    have h1 : (List.take off buf ++ v :: List.drop (off + 1) buf).take (off + 1)
        = List.take off buf ++ [v] := by
      rw [e1, show off + 1 = (List.take off buf ++ [v]).length from hlen.symm,
        List.take_left]
    have h2 : (List.take off buf ++ v :: List.drop (off + 1) buf).drop (off + 1 + vs.length)
        = buf.drop (off + (v :: vs).length) := by
      rw [e1, show off + 1 + vs.length = (List.take off buf ++ [v]).length + vs.length by
            rw [hlen],
        List.drop_append, List.drop_drop]
      congr 1
      simp [List.length_cons]
      omega
    rw [h1, h2]
    simp [List.length_cons]

/-! Concrete registries used by witnesses and counterexamples. -/

/-- A built-in table holding only the `UNDEF` hole plus one real entry
(`commonName`, NID 7, DER `55 04 03`), index arrays pointing at it. -/
def bigB : BuiltinTable :=
  ⟨[defaultObj, ⟨7, some "CN", some "commonName", some [85, 4, 3], 0⟩], [1], [1], [1]⟩

/-- A registry state with one added record: an `ADDED_SNAME` record for an
object with nid 9 and short name `other`. -/
def oneState : RegState :=
  ⟨some [0], fun _ => ⟨1, 0⟩,
   fun _ => { nid := 9, sn := some "other", ln := none, data := none, flags := 0 },
   1, 1, 10⟩

/-- C10 — `OBJ_obj2txt` on a NULL object, or on an object whose `data`
pointer is NULL, returns 0 (not the `-1` error value), and with a non-NULL
buffer of capacity at least 1 it leaves the empty string (a leading NUL) in
the buffer. -/
theorem obj2txt_absent_data (B : BuiltinTable) (st : RegState) (lockOk : Bool)
    (no_name : Bool) (cap : Nat) (buf0 : List Nat) (a : Option Obj)
    (h : a = none ∨ ∃ ob, a = some ob ∧ ob.data = none) :
    (OBJ_obj2txt B st lockOk true cap buf0 a no_name).2 = 0 ∧
    (1 ≤ cap → 1 ≤ buf0.length →
      ((OBJ_obj2txt B st lockOk true cap buf0 a no_name).1).getD 0 1 = 0) := by
  rcases h with h | ⟨ob, ha, hd⟩
  · subst h
    constructor
    · simp only [OBJ_obj2txt]
    · intro hc hb
      simp only [OBJ_obj2txt]
      rw [if_pos ⟨trivial, hc⟩, getD_set, if_pos ⟨rfl, hb⟩]
  · subst ha
    constructor
    · simp only [OBJ_obj2txt, hd]
    · intro hc hb
      simp only [OBJ_obj2txt, hd]
      rw [if_pos ⟨trivial, hc⟩, getD_set, if_pos ⟨rfl, hb⟩]

/-- Witness for C10: a concrete object with a NULL data pointer and a
three-byte buffer. -/
theorem obj2txt_absent_data_witness :
    ((some { nid := 3, sn := some "nm", ln := none, data := none, flags := 0 } : Option Obj)
        = none ∨
      ∃ ob, (some { nid := 3, sn := some "nm", ln := none, data := none, flags := 0 }
              : Option Obj) = some ob ∧ ob.data = none) ∧
    (OBJ_obj2txt bigB oneState true true 3 [55, 55, 55]
      (some { nid := 3, sn := some "nm", ln := none, data := none, flags := 0 }) false).2 = 0 ∧
    (OBJ_obj2txt bigB oneState true true 3 [55, 55, 55]
      (some { nid := 3, sn := some "nm", ln := none, data := none, flags := 0 }) false).1.getD 0 1 = 0 := by
  refine ⟨Or.inr ⟨_, rfl, rfl⟩, ?_⟩
  have h := obj2txt_absent_data bigB oneState true false 3 [55, 55, 55]
    (some { nid := 3, sn := some "nm", ln := none, data := none, flags := 0 })
    (Or.inr ⟨_, rfl, rfl⟩)
  exact ⟨h.1, h.2 (by norm_num) (by norm_num)⟩

/-- The object of the C1 failing input: short and long name but no DER data
(as built by `OBJ_create(NULL, "a", "b")`), so `ao[ADDED_DATA]` stays NULL. -/
def c1Obj : Obj := { nid := 5, sn := some "a", ln := some "b", data := none, flags := 0 }

/-- An empty added index (table allocated, no records). -/
def emptyState : RegState :=
  ⟨some [], fun _ => ⟨-2, 0⟩, fun _ => defaultObj, 0, 0, 5⟩

/-- C1 — the registration rollback is not atomic on every failure: when the
lhash insert fails at `ADDED_NID` for an object with no DER data, the
rollback loop `while (i-- > ADDED_DATA)` reaches the absent `ADDED_DATA`
cell and calls `lh_ADDED_OBJ_delete(added, ao[0])` with `ao[0] == NULL`;
the delete hashes its key with `added_obj_hash`, which dereferences the NULL
pointer (`a = ca->obj`).  The model's `none` result is exactly this NULL
dereference: the call crashes instead of restoring the index and failing. -/
theorem add_object_rollback_null_deref :
    ossl_obj_add_object emptyState c1Obj false true true true true
      (fun i => i == 3) = none := by
  rfl

/-- C3 counterexample — a lookup by an absent key that *does* record an
error: `OBJ_nid2obj` on NID 5, absent from both the built-in table and the
(empty) added index, returns NULL but raises `OBJ_R_UNKNOWN_NID`, contrary
to the claim that a not-found lookup records no error. -/
theorem nid2obj_missing_raises :
    OBJ_nid2obj bigB emptyState true 5 = (none, [Err.unknownNid]) := by
  rfl

/-- C3 (amended) — for `sn_to_nid`, `ln_to_nid` and `obj_to_nid`, a key
present in neither the built-in table nor the added index yields
`NID_undef` with no error recorded (only lock failures would raise); for
`nid_to_obj`, an absent NID yields NULL but records `OBJ_R_UNKNOWN_NID`. -/
theorem lookup_missing_keys (B : BuiltinTable) (st : RegState)
    (s t : String) (a : Obj) (n : Int)
    (hs1 : OBJ_bsearch_sn B s = none)
    (hs2 : ∀ tbl, st.added = some tbl →
      lhRetrieve st.recs st.objs tbl (snKey s) = none)
    (ht1 : OBJ_bsearch_ln B t = none)
    (ht2 : ∀ tbl, st.added = some tbl →
      lhRetrieve st.recs st.objs tbl (lnKey t) = none)
    (ha0 : a.nid = 0)
    (ha1 : OBJ_bsearch_obj B a = none)
    (ha2 : ∀ tbl, st.added = some tbl → lhRetrieve st.recs st.objs tbl (0, a) = none)
    (hn1 : ¬(n = 0 ∨ (0 < n ∧ n < numNid B ∧ (bNth B n.toNat).nid ≠ 0)))
    (hn2 : ∀ tbl, st.added = some tbl →
      lhRetrieve st.recs st.objs tbl (nidKey n) = none) :
    OBJ_sn2nid B st true s = (0, []) ∧
    OBJ_ln2nid B st true t = (0, []) ∧
    OBJ_obj2nid B st true a = (0, []) ∧
    OBJ_nid2obj B st true n = (none, [Err.unknownNid]) := by
  refine ⟨?_, ?_, ?_, ?_⟩
  · rw [OBJ_sn2nid, hs1]
    simp only [not_true_eq_false, if_false]
    cases h : st.added with
    | none => rfl
    | some tbl => simp only [hs2 tbl h]
  · rw [OBJ_ln2nid, ht1]
    simp only [not_true_eq_false, if_false]
    cases h : st.added with
    | none => rfl
    | some tbl => simp only [ht2 tbl h]
  · rw [OBJ_obj2nid, ossl_obj_obj2nid]
    rw [if_neg (by simp [ha0])]
    by_cases hlen : objLength a = 0
    · rw [if_pos hlen]
    · rw [if_neg hlen, ha1]
      simp only [true_and, not_true_eq_false, false_and, if_false]
      cases h : st.added with
      | none => rfl
      | some tbl => simp only [ha2 tbl h]
  · rw [OBJ_nid2obj, if_neg hn1]
    simp only [not_true_eq_false, if_false]
    cases h : st.added with
    | none => rfl
    | some tbl => simp only [hn2 tbl h]

/-- Witness for the amended C3: in the concrete registry (one built-in entry,
one added `SNAME` record for `other`), the names `zz`/`yy`, the DER
`2a 03 04` and the NID 5 are all absent; the three nid-returning lookups
answer `UNDEF` with no error and `nid_to_obj` raises `UNKNOWN_NID`. -/
theorem lookup_missing_keys_witness :
    OBJ_sn2nid bigB oneState true "zz" = (0, []) ∧
    OBJ_ln2nid bigB oneState true "yy" = (0, []) ∧
    OBJ_obj2nid bigB oneState true (wrapDer [42, 3, 4]) = (0, []) ∧
    OBJ_nid2obj bigB oneState true 5 = (none, [Err.unknownNid]) :=
  lookup_missing_keys bigB oneState "zz" "yy" (wrapDer [42, 3, 4]) 5
    (by decide)
    (fun tbl h => by
      rw [show tbl = [0] from (Option.some.inj h).symm]; decide)
    (by decide)
    (fun tbl h => by
      rw [show tbl = [0] from (Option.some.inj h).symm]; decide)
    (by decide) (by decide)
    (fun tbl h => by
      rw [show tbl = [0] from (Option.some.inj h).symm]; decide)
    (by decide)
    (fun tbl h => by
      rw [show tbl = [0] from (Option.some.inj h).symm]; decide)

/-- On a byte string whose final byte has the continuation bit set, the
emission loop always returns `-1`. -/
theorem obj2txtGo_bad_last (bufp : Bool) {c : Nat} :
    ∀ (p : List Nat), p.getLast? = some c → 128 ≤ c →
    ∀ (s : TxtSt) (first : Bool) (acc : Nat), (obj2txtGo bufp s first acc p).2 = -1 := by
  intro p
  induction p with
  | nil => intro hl; simp at hl
  | cons x xs ih =>
    intro hl hc s first acc
    rw [obj2txtGo]
    by_cases h1 : xs = [] ∧ 128 ≤ x
    · rw [if_pos h1]
    · rw [if_neg h1]
      cases xs with
      | nil =>
        exfalso
        have hx : x = c := by simpa using hl
        exact h1 ⟨rfl, hx ▸ hc⟩
      | cons y ys =>
        have hl' : (y :: ys).getLast? = some c := by
          rw [List.getLast?_cons_cons] at hl
          exact hl
        by_cases h2 : x < 128
        · rw [if_pos h2]
          by_cases hf : first
          · simp only [hf, if_true]
            exact ih hl' hc _ _ _
          · simp only [hf, if_false]
            exact ih hl' hc _ _ _
        · rw [if_neg h2]
          exact ih hl' hc _ _ _

/-- C4 — `OBJ_obj2txt` in dotted-form mode (`no_name` set) rejects with `-1`
every DER input longer than 586 bytes and every input whose final byte has
the continuation bit (`0x80`) set. -/
theorem obj2txt_rejects (B : BuiltinTable) (st : RegState) (lockOk : Bool)
    (bufp : Bool) (cap : Nat) (buf0 : List Nat) (ob : Obj) (d : List Nat)
    (hd : ob.data = some d)
    (h : 586 < d.length ∨ ∃ c, d.getLast? = some c ∧ 128 ≤ c) :
    (OBJ_obj2txt B st lockOk bufp cap buf0 (some ob) true).2 = -1 := by
  have hname : obj2txtName B st lockOk ob true = none := by
    rw [obj2txtName, if_neg (by simp)]
  simp only [OBJ_obj2txt, hd, hname]
  by_cases hlen : 586 < d.length
  · simp [hlen]
  · rcases h with h | ⟨c, hl, hc⟩
    · exact absurd h hlen
    · simp only [hlen, if_false]
      exact obj2txtGo_bad_last bufp d hl hc _ _ _

/-- Witness for C4: a 587-byte DER blob is rejected, and so is the two-byte
string `01 81` whose final byte has the continuation bit. -/
theorem obj2txt_rejects_witness :
    (OBJ_obj2txt bigB emptyState true true 4 [9, 9, 9, 9]
      (some (wrapDer (List.replicate 587 1))) true).2 = -1 ∧
    (OBJ_obj2txt bigB emptyState true true 4 [9, 9, 9, 9]
      (some (wrapDer [1, 129])) true).2 = -1 := by
  constructor
  · exact obj2txt_rejects bigB emptyState true true 4 [9, 9, 9, 9] _ _ rfl
      (Or.inl (by rw [List.length_replicate]; norm_num))
  · exact obj2txt_rejects bigB emptyState true true 4 [9, 9, 9, 9] _ _ rfl
      (Or.inr ⟨129, by rfl, by norm_num⟩)

/-! Error-channel facts: with the lock available, the nid-returning lookups
and the `no_name` text parse record no errors at all. -/

theorem sn2nid_no_err (B : BuiltinTable) (st : RegState) (s : String) :
    (OBJ_sn2nid B st true s).2 = [] := by
  cases h1 : OBJ_bsearch_sn B s with
  | some i => simp [OBJ_sn2nid, h1]
  | none =>
    cases h2 : st.added with
    | none => simp [OBJ_sn2nid, h1, h2]
    | some tbl =>
      cases h3 : lhRetrieve st.recs st.objs tbl (snKey s) with
      | some rid => simp [OBJ_sn2nid, h1, h2, h3]
      | none => simp [OBJ_sn2nid, h1, h2, h3]

theorem ln2nid_no_err (B : BuiltinTable) (st : RegState) (s : String) :
    (OBJ_ln2nid B st true s).2 = [] := by
  cases h1 : OBJ_bsearch_ln B s with
  | some i => simp [OBJ_ln2nid, h1]
  | none =>
    cases h2 : st.added with
    | none => simp [OBJ_ln2nid, h1, h2]
    | some tbl =>
      cases h3 : lhRetrieve st.recs st.objs tbl (lnKey s) with
      | some rid => simp [OBJ_ln2nid, h1, h2, h3]
      | none => simp [OBJ_ln2nid, h1, h2, h3]

theorem txt2obj_noname_no_err (B : BuiltinTable) (st : RegState) (lockOk : Bool)
    (s : String) : (OBJ_txt2obj B st lockOk s true).2 = [] := by
  rw [OBJ_txt2obj]
  simp only [not_true_eq_false, if_false]
  rw [txt2objCodec]
  cases text_to_der s with
  | none => rfl
  | some d => rfl

theorem obj2nid_nolock_no_err (B : BuiltinTable) (st : RegState)
    (a : Option Obj) (lockOk : Bool) :
    (ossl_obj_obj2nid B st a false lockOk).2 = [] := by
  cases a with
  | none => simp [ossl_obj_obj2nid]
  | some a =>
    by_cases h1 : a.nid ≠ 0
    · simp [ossl_obj_obj2nid, h1]
    · by_cases h2 : objLength a = 0
      · simp [ossl_obj_obj2nid, h1, h2]
      · cases h3 : OBJ_bsearch_obj B a with
        | some i => simp [ossl_obj_obj2nid, h1, h2, h3]
        | none =>
          cases h4 : st.added with
          | none => simp [ossl_obj_obj2nid, h1, h2, h3, h4]
          | some tbl =>
            cases h5 : lhRetrieve st.recs st.objs tbl (0, a) with
            | some rid => simp [ossl_obj_obj2nid, h1, h2, h3, h4, h5]
            | none => simp [ossl_obj_obj2nid, h1, h2, h3, h4, h5]

/-- C7 — `OBJ_txt2obj(s, no_name = false)` resolves `s` first as a short
name, then as a long name, returning the corresponding registered entry on a
hit; on a miss it fails (NULL, `OBJ_R_UNKNOWN_OBJECT_NAME`) unless the first
character of `s` is a digit, in which case the dotted-decimal codec parses
`s` and a freshly built entry is returned. -/
theorem txt2obj_resolution (B : BuiltinTable) (st : RegState) (s : String) :
    ((OBJ_sn2nid B st true s).1 ≠ 0 →
      OBJ_txt2obj B st true s false =
        ((OBJ_nid2obj B st true (OBJ_sn2nid B st true s).1).1,
         (OBJ_sn2nid B st true s).2 ++ (OBJ_nid2obj B st true (OBJ_sn2nid B st true s).1).2)) ∧
    ((OBJ_sn2nid B st true s).1 = 0 → (OBJ_ln2nid B st true s).1 ≠ 0 →
      (OBJ_txt2obj B st true s false).1 =
        (OBJ_nid2obj B st true (OBJ_ln2nid B st true s).1).1) ∧
    ((OBJ_sn2nid B st true s).1 = 0 → (OBJ_ln2nid B st true s).1 = 0 →
      ¬isDigitC (headChar s.data) = true →
      (OBJ_txt2obj B st true s false).1 = none) ∧
    ((OBJ_sn2nid B st true s).1 = 0 → (OBJ_ln2nid B st true s).1 = 0 →
      isDigitC (headChar s.data) = true →
      (OBJ_txt2obj B st true s false).1 = (text_to_der s).map wrapDer) := by
  refine ⟨?_, ?_, ?_, ?_⟩
  · intro h1
    rw [OBJ_txt2obj]
    simp only [Bool.false_eq_true, not_false_eq_true, if_true]
    rw [if_pos h1]
  · intro h1 h2
    rw [OBJ_txt2obj]
    simp only [Bool.false_eq_true, not_false_eq_true, if_true]
    rw [if_neg (by simp [h1]), if_pos h2]
  · intro h1 h2 h3
    rw [OBJ_txt2obj]
    simp only [Bool.false_eq_true, not_false_eq_true, if_true]
    rw [if_neg (by simp [h1]), if_neg (by simp [h2]), if_pos h3]
  · intro h1 h2 h3
    rw [OBJ_txt2obj]
    simp only [Bool.false_eq_true, not_false_eq_true, if_true]
    rw [if_neg (by simp [h1]), if_neg (by simp [h2]), if_neg (not_not_intro h3),
      txt2objCodec]
    cases text_to_der s with
    | none => rfl
    | some d => rfl

/-- Witness for C7: in the concrete registry, `other` resolves as an added
short name and is returned through `nid_to_obj`; `1.2.3` misses both name
tables, starts with a digit, and is parsed by the codec into a fresh entry
carrying DER `2a 03`. -/
theorem txt2obj_resolution_witness :
    (OBJ_txt2obj bigB oneState true "other" false).1 =
      (OBJ_nid2obj bigB oneState true (OBJ_sn2nid bigB oneState true "other").1).1 ∧
    (OBJ_txt2obj bigB oneState true "1.2.3" false).1 =
      (text_to_der "1.2.3").map wrapDer := by
  constructor
  · exact congrArg Prod.fst ((txt2obj_resolution bigB oneState "other").1 (by decide))
  · exact (txt2obj_resolution bigB oneState "1.2.3").2.2.2 (by decide) (by decide)
      (by decide)

/-- C6 — `OBJ_create` fails with `OBJ_R_OID_EXISTS`, leaving the registry
state unchanged (nothing registered, no NID consumed), whenever the given
`sn` or `ln` already resolves to a NID other than `UNDEF`, or the given
dotted text parses to DER content octets already known to the registry
(built-in or added, probed by `ossl_obj_obj2nid` on the parsed object). -/
theorem OBJ_create_already_exists (B : BuiltinTable) (st : RegState)
    (oid sn ln : Option String) (dupOk cellOk newOk : Bool) (insFail : Nat → Bool) :
    (((∃ s, sn = some s ∧ (OBJ_sn2nid B st true s).1 ≠ 0) ∨
      (∃ t, ln = some t ∧ (OBJ_ln2nid B st true t).1 ≠ 0)) →
      OBJ_create B st true dupOk cellOk newOk insFail oid sn ln =
        some (st, 0, [Err.oidExists])) ∧
    ((∀ s, sn = some s → (OBJ_sn2nid B st true s).1 = 0) →
     (∀ t, ln = some t → (OBJ_ln2nid B st true t).1 = 0) →
     ∀ ot tmp, oid = some ot →
     (OBJ_txt2obj B st true ot true).1 = some tmp →
     (ossl_obj_obj2nid B st (some tmp) false true).1 ≠ 0 →
     OBJ_create B st true dupOk cellOk newOk insFail oid sn ln =
       some (st, 0, [Err.oidExists])) := by
  have hsn2 : ∀ x : Option String, (resolveName (OBJ_sn2nid B st true) x).2 = [] := by
    intro x
    cases x with
    | none => rfl
    | some s => exact sn2nid_no_err B st s
  have hln2 : ∀ x : Option String, (resolveName (OBJ_ln2nid B st true) x).2 = [] := by
    intro x
    cases x with
    | none => rfl
    | some s => exact ln2nid_no_err B st s
  constructor
  · intro h
    have hny : ¬(oid = none ∧ sn = none ∧ ln = none) := by
      rcases h with ⟨s, hs, _⟩ | ⟨t, ht, _⟩
      · simp [hs]
      · simp [ht]
    by_cases hs : (resolveName (OBJ_sn2nid B st true) sn).1 ≠ 0
    · simp only [OBJ_create.eq_def, if_neg hny, if_pos hs, hsn2 sn, List.nil_append]
    · obtain ⟨t, ht, hne⟩ : ∃ t, ln = some t ∧ (OBJ_ln2nid B st true t).1 ≠ 0 := by
        rcases h with ⟨s', hs', hne'⟩ | h2
        · exfalso
          apply hs
          rw [hs']
          exact hne'
        · exact h2
      have hlt : (resolveName (OBJ_ln2nid B st true) ln).1 ≠ 0 := by
        rw [ht]
        exact hne
      simp only [OBJ_create.eq_def, if_neg hny, if_neg hs, if_pos hlt, hsn2 sn,
        hln2 ln, List.nil_append]
  · intro hsn hln ot tmp hoid hparse hknown
    subst hoid
    have hsP : ¬(resolveName (OBJ_sn2nid B st true) sn).1 ≠ 0 := by
      cases sn with
      | none => simp [resolveName]
      | some s => simp [resolveName, hsn s rfl]
    have hlP : ¬(resolveName (OBJ_ln2nid B st true) ln).1 ≠ 0 := by
      cases ln with
      | none => simp [resolveName]
      | some t => simp [resolveName, hln t rfl]
    simp only [OBJ_create.eq_def, if_neg (show ¬((some ot : Option String) = none
        ∧ sn = none ∧ ln = none) by simp), if_neg hsP, if_neg hlP, hsn2 sn,
      hln2 ln, List.nil_append, hparse, txt2obj_noname_no_err, List.append_nil]
    rw [if_neg (not_not_intro trivial)]
    rw [if_pos ⟨by simp, hknown⟩]

/-- Witness for C6: in the concrete registry, `CN` is a built-in short name,
so `register("1.9.9", "CN", "nn")` fails with `OID_EXISTS` and changes
nothing; `2.5.4.3` encodes to the built-in DER `55 04 03`, so
`register("2.5.4.3", "xx", "yy")` also fails with `OID_EXISTS`. -/
theorem OBJ_create_already_exists_witness :
    OBJ_create bigB oneState true true true true (fun _ => false)
      (some "1.9.9") (some "CN") (some "nn") = some (oneState, 0, [Err.oidExists]) ∧
    OBJ_create bigB oneState true true true true (fun _ => false)
      (some "2.5.4.3") (some "xx") (some "yy") = some (oneState, 0, [Err.oidExists]) := by
  constructor
  · exact (OBJ_create_already_exists bigB oneState (some "1.9.9") (some "CN")
      (some "nn") true true true (fun _ => false)).1
      (Or.inl ⟨"CN", rfl, by decide⟩)
  · exact (OBJ_create_already_exists bigB oneState (some "2.5.4.3") (some "xx")
      (some "yy") true true true (fun _ => false)).2
      (fun s hs => by cases Option.some.inj hs; decide)
      (fun t ht => by cases Option.some.inj ht; decide)
      "2.5.4.3" (wrapDer [85, 4, 3]) rfl (by decide) (by decide)

/-! C9: the loader's count. -/

theorem parseLine_oid (c : List Char) (p : Bool) :
    (parseLine c p).1.oid = c.takeWhile (fun ch => isDigitC ch || ch = '.') := by
  simp only [parseLine]
  repeat' split
  all_goals rfl

theorem takeWhile_head_digit (c : List Char)
    (h : c.takeWhile (fun ch => isDigitC ch || ch = '.') ≠ []) :
    (isDigitC (headChar c) || headChar c = '.') = true := by
  cases c with
  | nil => simp at h
  | cons ch cs =>
    rw [List.takeWhile_cons] at h
    rw [show headChar (ch :: cs) = ch from rfl]
    by_cases hp : (isDigitC ch || decide (ch = '.')) = true
    · exact hp
    · rw [if_neg hp] at h
      exact absurd rfl h

theorem takeWhile_cons_of_digit (c : List Char)
    (hd : isDigitC (headChar c) = true) :
    c.takeWhile (fun ch => isDigitC ch || ch = '.') ≠ [] := by
  cases c with
  | nil => exact absurd hd (by decide)
  | cons ch cs =>
    rw [show headChar (ch :: cs) = ch from rfl] at hd
    rw [List.takeWhile_cons, if_pos (by rw [hd]; rfl)]
    exact List.cons_ne_nil _ _

theorem digit_of_alnum_oid (ch : Char) (h1 : isAlnumC ch = true)
    (h2 : (isDigitC ch || ch = '.') = true) : isDigitC ch = true := by
  rcases Bool.or_eq_true_iff.mp h2 with h | h
  · exact h
  · rw [decide_eq_true_iff] at h
    subst h
    exact absurd h1 (by decide)

/-- C9 — `OBJ_create_objects` returns exactly the number of successfully
registered lines: the result trace of `OBJ_create` calls is `num` successes,
optionally followed by the single failure that terminated loading; a call is
made for every well-formed line (non-empty as read, content starting with a
digit) until termination, so when no call fails the count equals the length
of the leading well-formed prefix of the input, and no call is ever made
beyond that prefix. -/
theorem create_objects_count {σ : Type} (create : σ → CreateArgs → σ × Bool)
    (s : σ) (p : Bool) (lines : List (List Char)) :
    ((OBJ_create_objects create s p lines).2.2 =
        List.replicate (OBJ_create_objects create s p lines).2.1 true ∨
      (OBJ_create_objects create s p lines).2.2 =
        List.replicate (OBJ_create_objects create s p lines).2.1 true ++ [false]) ∧
    (OBJ_create_objects create s p lines).2.2.length ≤
      (lines.takeWhile wfLine).length ∧
    ((OBJ_create_objects create s p lines).2.2 =
        List.replicate (OBJ_create_objects create s p lines).2.1 true →
      (OBJ_create_objects create s p lines).2.1 = (lines.takeWhile wfLine).length) := by
  induction lines generalizing s p with
  | nil => simp [OBJ_create_objects]
  | cons l rest ih =>
    by_cases h0 : l = []
    · have hw : wfLine l = false := by
        rw [h0]
        decide
      rw [List.takeWhile_cons, hw]
      simp [OBJ_create_objects, h0]
    · by_cases h1 : isAlnumC (headChar l.dropLast) = true
      · by_cases h2 : (parseLine (l.dropLast) p).1.oid = []
        · have hw : wfLine l = false := by
            rw [parseLine_oid] at h2
            have hdf : isDigitC (headChar l.dropLast) = false := by
              by_cases hd : isDigitC (headChar l.dropLast) = true
              · exact absurd h2 (takeWhile_cons_of_digit _ hd)
              · exact Bool.eq_false_iff.mpr hd
            rw [wfLine, hdf, Bool.and_false]
          rw [List.takeWhile_cons, hw]
          simp only [Bool.false_eq_true, if_false]
          simp [OBJ_create_objects, h0, h1, h2]
        · have hw : wfLine l = true := by
            rw [parseLine_oid] at h2
            have hp := takeWhile_head_digit _ h2
            have hd := digit_of_alnum_oid _ h1 hp
            have hl : (l != []) = true := by
              rw [bne_iff_ne]
              exact h0
            rw [wfLine, hl, hd, Bool.true_and]
          have hstep : OBJ_create_objects create s p (l :: rest) =
              if (create s (parseLine l.dropLast p).1).2 then
                ((OBJ_create_objects create (create s (parseLine l.dropLast p).1).1
                    (parseLine l.dropLast p).2 rest).1,
                 (OBJ_create_objects create (create s (parseLine l.dropLast p).1).1
                    (parseLine l.dropLast p).2 rest).2.1 + 1,
                 true :: (OBJ_create_objects create (create s (parseLine l.dropLast p).1).1
                    (parseLine l.dropLast p).2 rest).2.2)
              else ((create s (parseLine l.dropLast p).1).1, 0, [false]) := by
            rw [OBJ_create_objects]
            rw [if_neg h0, if_neg (by simp [h1]), if_neg h2]
          rw [List.takeWhile_cons, hw]
          simp only [if_true]
          by_cases hcr : (create s (parseLine l.dropLast p).1).2 = true
          · rw [hstep, if_pos hcr]
            obtain ⟨ih1, ih2, ih3⟩ := ih (create s (parseLine l.dropLast p).1).1
              (parseLine l.dropLast p).2
            refine ⟨?_, ?_, ?_⟩
            · rcases ih1 with ih1 | ih1
            -- the recursive trace determines the shape of the extended one
              · exact Or.inl (by rw [List.replicate_succ, ih1])
              · exact Or.inr (by rw [List.replicate_succ, List.cons_append, ih1])
            · simpa using ih2
            · intro h
              rw [List.replicate_succ] at h
              have h' := List.cons_eq_cons.mp h
              have := ih3 h'.2
              simp [this]
          · rw [hstep, if_neg hcr]
            refine ⟨Or.inr (by simp), by simp, ?_⟩
            intro h
            simp at h
      · have hw : wfLine l = false := by
          have hdf : isDigitC (headChar l.dropLast) = false := by
            by_cases hd : isDigitC (headChar l.dropLast) = true
            · exfalso
              apply h1
              rw [isAlnumC, hd]
              rfl
            · exact Bool.eq_false_iff.mpr hd
          rw [wfLine, hdf, Bool.and_false]
        rw [List.takeWhile_cons, hw]
        simp [OBJ_create_objects, h0, h1]

/-- Witness for C9: three well-formed lines against a register that accepts
the first two calls and rejects the third: the count is 2 and the trace is
two successes then the terminating failure. -/
theorem create_objects_count_witness :
    ((OBJ_create_objects (fun (n : Nat) _ => (n + 1, n < 2)) 0 false
        ["1.2 a\n".data, "3.4 b\n".data, "5.6 c\n".data]).2.2 =
      List.replicate (OBJ_create_objects (fun (n : Nat) _ => (n + 1, n < 2)) 0 false
        ["1.2 a\n".data, "3.4 b\n".data, "5.6 c\n".data]).2.1 true ∨
     (OBJ_create_objects (fun (n : Nat) _ => (n + 1, n < 2)) 0 false
        ["1.2 a\n".data, "3.4 b\n".data, "5.6 c\n".data]).2.2 =
      List.replicate (OBJ_create_objects (fun (n : Nat) _ => (n + 1, n < 2)) 0 false
        ["1.2 a\n".data, "3.4 b\n".data, "5.6 c\n".data]).2.1 true ++ [false]) ∧
    (OBJ_create_objects (fun (n : Nat) _ => (n + 1, n < 2)) 0 false
        ["1.2 a\n".data, "3.4 b\n".data, "5.6 c\n".data]).2.2.length ≤
      ((["1.2 a\n".data, "3.4 b\n".data, "5.6 c\n".data]).takeWhile wfLine).length ∧
    ((OBJ_create_objects (fun (n : Nat) _ => (n + 1, n < 2)) 0 false
        ["1.2 a\n".data, "3.4 b\n".data, "5.6 c\n".data]).2.2 =
      List.replicate (OBJ_create_objects (fun (n : Nat) _ => (n + 1, n < 2)) 0 false
        ["1.2 a\n".data, "3.4 b\n".data, "5.6 c\n".data]).2.1 true →
      (OBJ_create_objects (fun (n : Nat) _ => (n + 1, n < 2)) 0 false
        ["1.2 a\n".data, "3.4 b\n".data, "5.6 c\n".data]).2.1 =
        ((["1.2 a\n".data, "3.4 b\n".data, "5.6 c\n".data]).takeWhile wfLine).length) :=
  create_objects_count (fun (n : Nat) _ => (n + 1, n < 2)) 0 false
    ["1.2 a\n".data, "3.4 b\n".data, "5.6 c\n".data]

/-! C8: the three-pass shutdown sweep. -/

theorem pass1_not_ref (recs : Nat → AddedRec) (o : Nat) :
    ∀ (tbl : List Nat) (objs : Nat → Obj),
    (∀ rid ∈ tbl, (recs rid).obj ≠ o) → pass1 recs tbl objs o = objs o := by
  intro tbl
  induction tbl with
  | nil => intro objs _; rfl
  | cons rid tl ih =>
    intro objs h
    rw [pass1, List.foldl_cons, ← pass1, ih _ (fun r hr => h r (List.mem_cons_of_mem _ hr))]
    rw [cleanup1_doall, updFn, if_neg (fun he => h rid (List.mem_cons_self _ _) he.symm)]

theorem pass1_ref_nid (recs : Nat → AddedRec) (o : Nat) :
    ∀ (tbl : List Nat) (objs : Nat → Obj),
    o ∈ tbl.map (fun rid => (recs rid).obj) → (pass1 recs tbl objs o).nid = 0 := by
  intro tbl
  induction tbl with
  | nil => intro objs h; simp at h
  | cons rid tl ih =>
    intro objs h
    rw [pass1, List.foldl_cons, ← pass1]
    by_cases h2 : o ∈ tl.map (fun rid => (recs rid).obj)
    · exact ih _ h2
    · have ho : (recs rid).obj = o := by
        rcases List.mem_map.mp h with ⟨r, hr, he⟩
        rcases List.mem_cons.mp hr with hr | hr
        · rw [← hr]; exact he
        · exact absurd (List.mem_map.mpr ⟨r, hr, he⟩) h2
      rw [pass1_not_ref recs o tl _ (by
        intro r hr he
        exact h2 (List.mem_map.mpr ⟨r, hr, he⟩))]
      rw [cleanup1_doall, ho, updFn, if_pos rfl]

theorem refCount_zero_iff (recs : Nat → AddedRec) (tbl : List Nat) (o : Nat) :
    refCount recs tbl o = 0 ↔ o ∉ tbl.map (fun rid => (recs rid).obj) := by
  rw [refCount, List.length_eq_zero, List.filter_eq_nil]
  constructor
  · intro h hm
    rcases List.mem_map.mp hm with ⟨r, hr, he⟩
    exact h r hr (by simp [he])
  · intro h r hr he
    exact h (List.mem_map.mpr ⟨r, hr, by simpa using he⟩)

theorem refCount_cons (recs : Nat → AddedRec) (rid : Nat) (tl : List Nat) (o : Nat) :
    refCount recs (rid :: tl) o =
      (if (recs rid).obj = o then 1 else 0) + refCount recs tl o := by
  rw [refCount, refCount, List.filter_cons]
  by_cases ho : (recs rid).obj = o
  · rw [if_pos (by simp [ho]), if_pos ho, List.length_cons]
    omega
  · rw [if_neg (by simp [ho]), if_neg ho]
    omega

theorem pass2_nid (recs : Nat → AddedRec) (o : Nat) :
    ∀ (tbl : List Nat) (objs : Nat → Obj),
    (pass2 recs tbl objs o).nid = (objs o).nid + (refCount recs tbl o : Int) := by
  intro tbl
  induction tbl with
  | nil =>
    intro objs
    simp [pass2, refCount]
  | cons rid tl ih =>
    intro objs
    rw [pass2, List.foldl_cons, ← pass2, ih, refCount_cons, cleanup2_doall]
    by_cases ho : (recs rid).obj = o
    · rw [if_pos ho, ho, updFn, if_pos rfl]
      show (objs o).nid + 1 + (refCount recs tl o : Int) =
        (objs o).nid + ((1 + refCount recs tl o : Nat) : Int)
      push_cast
      ring
    · rw [if_neg ho, updFn, if_neg (fun he => ho he.symm)]
      show (objs o).nid + (refCount recs tl o : Int) =
        (objs o).nid + ((0 + refCount recs tl o : Nat) : Int)
      push_cast
      ring



theorem pass3_fold (recs : Nat → AddedRec) :
    ∀ (tbl : List Nat) (objs : Nat → Obj) (acc : List Nat) (k : Nat),
    (∀ o, o ∈ tbl.map (fun rid => (recs rid).obj) →
      (objs o).nid = (refCount recs tbl o : Int)) →
    (tbl.foldl (cleanup3_doall recs) ⟨objs, acc, k⟩).freedRecs = k + tbl.length ∧
    ∀ o, (tbl.foldl (cleanup3_doall recs) ⟨objs, acc, k⟩).freed.count o =
      acc.count o + (if o ∈ tbl.map (fun rid => (recs rid).obj) then 1 else 0) := by
  intro tbl
  induction tbl with
  | nil =>
    intro objs acc k _
    refine ⟨rfl, fun o => ?_⟩
    simp
  | cons rid tl ih =>
    intro objs acc k hn
    have hself : (objs (recs rid).obj).nid = (refCount recs (rid :: tl) (recs rid).obj : Int) :=
      hn _ (List.mem_map.mpr ⟨rid, List.mem_cons_self _ _, rfl⟩)
    have hcnt : refCount recs (rid :: tl) (recs rid).obj =
        1 + refCount recs tl (recs rid).obj := by
      rw [refCount_cons, if_pos rfl]
    rw [List.foldl_cons]
    have hstep : cleanup3_doall recs ⟨objs, acc, k⟩ rid =
        ⟨updFn objs (recs rid).obj
          { objs (recs rid).obj with nid := (refCount recs tl (recs rid).obj : Int) },
         if (refCount recs tl (recs rid).obj : Int) = 0 then acc ++ [(recs rid).obj] else acc,
         k + 1⟩ := by
      rw [cleanup3_doall]
      have hv : (objs (recs rid).obj).nid - 1 = (refCount recs tl (recs rid).obj : Int) := by
        rw [hself, hcnt]
        push_cast
        ring
      rw [hv]
    rw [hstep]
    have hnext : ∀ o, o ∈ tl.map (fun r => (recs r).obj) →
        ((updFn objs (recs rid).obj
          { objs (recs rid).obj with nid := (refCount recs tl (recs rid).obj : Int) }) o).nid =
          (refCount recs tl o : Int) := by
      intro o hm
      rw [updFn]
      by_cases he : o = (recs rid).obj
      · rw [if_pos he, he]
      · rw [if_neg he]
        have := hn o (by
          rcases List.mem_map.mp hm with ⟨r, hr, hre⟩
          exact List.mem_map.mpr ⟨r, List.mem_cons_of_mem _ hr, hre⟩)
        rw [this, refCount_cons, if_neg (fun hx => he hx.symm)]
        push_cast
        ring
    obtain ⟨ihr, ihc⟩ := ih (updFn objs (recs rid).obj
      { objs (recs rid).obj with nid := (refCount recs tl (recs rid).obj : Int) })
      (if (refCount recs tl (recs rid).obj : Int) = 0 then acc ++ [(recs rid).obj] else acc)
      (k + 1) hnext
    refine ⟨by rw [ihr, List.length_cons]; omega, fun o => ?_⟩
    rw [ihc o]
    by_cases hz : refCount recs tl (recs rid).obj = 0
    · rw [if_pos (by exact_mod_cast hz)]
      have hnm : (recs rid).obj ∉ tl.map (fun r => (recs r).obj) :=
        (refCount_zero_iff recs tl _).mp hz
      by_cases he : o = (recs rid).obj
      · subst he
        rw [List.count_append, if_neg hnm,
          if_pos (List.mem_map.mpr ⟨rid, List.mem_cons_self _ _, rfl⟩)]
        simp
      · rw [List.count_append]
        have : List.count o [(recs rid).obj] = 0 := by
          simp [List.count_singleton]
          exact fun hx => he hx.symm
        rw [this]
        have hmem : (o ∈ (rid :: tl).map (fun r => (recs r).obj)) ↔
            (o ∈ tl.map (fun r => (recs r).obj)) := by
          simp only [List.map_cons, List.mem_cons]
          constructor
          · intro h
            rcases h with h | h
            · exact absurd h.symm (fun hx => he hx.symm)
            · exact h
          · exact Or.inr
        rw [if_congr hmem rfl rfl]
        omega
    · rw [if_neg (by exact_mod_cast hz)]
      have hm : (recs rid).obj ∈ tl.map (fun r => (recs r).obj) := by
        by_contra hx
        exact hz ((refCount_zero_iff recs tl _).mpr hx)
      by_cases he : o = (recs rid).obj
      · subst he
        rw [if_pos hm, if_pos (List.mem_map.mpr ⟨rid, List.mem_cons_self _ _, rfl⟩)]
      · have hmem : (o ∈ (rid :: tl).map (fun r => (recs r).obj)) ↔
            (o ∈ tl.map (fun r => (recs r).obj)) := by
          simp only [List.map_cons, List.mem_cons]
          constructor
          · intro h
            rcases h with h | h
            · exact absurd h.symm (fun hx => he hx.symm)
            · exact h
          · exact Or.inr
        rw [if_congr hmem rfl rfl]

/-- C8 — after pass 1 (zeroing) and pass 2 (incrementing) of the shutdown
sweep, the `nid` field of every added entry equals the number of index
records referencing it, which is between 1 and 4 when no entry is referenced
by more than four records; pass 3 then frees each such entry exactly once
(its id appears exactly once in the freed list) and frees every record cell. -/
theorem cleanup_passes (recs : Nat → AddedRec) (tbl : List Nat)
    (objs : Nat → Obj) (o : Nat)
    (hle : refCount recs tbl o ≤ 4)
    (ho : o ∈ tbl.map (fun rid => (recs rid).obj)) :
    (pass2 recs tbl (pass1 recs tbl objs) o).nid = (refCount recs tbl o : Int) ∧
    1 ≤ refCount recs tbl o ∧ refCount recs tbl o ≤ 4 ∧
    (pass3 recs tbl (pass2 recs tbl (pass1 recs tbl objs))).freedRecs = tbl.length ∧
    (pass3 recs tbl (pass2 recs tbl (pass1 recs tbl objs))).freed.count o = 1 := by
  have hnid : ∀ o', o' ∈ tbl.map (fun rid => (recs rid).obj) →
      (pass2 recs tbl (pass1 recs tbl objs) o').nid = (refCount recs tbl o' : Int) := by
    intro o' ho'
    rw [pass2_nid, pass1_ref_nid recs o' tbl objs ho']
    ring
  have h1 : 1 ≤ refCount recs tbl o := by
    by_contra h
    have hz : refCount recs tbl o = 0 := by omega
    exact (refCount_zero_iff recs tbl o).mp hz ho
  obtain ⟨hfr, hfc⟩ := pass3_fold recs tbl
    (pass2 recs tbl (pass1 recs tbl objs)) [] 0 hnid
  refine ⟨hnid o ho, h1, hle, ?_, ?_⟩
  · rw [pass3, hfr]
    omega
  · rw [pass3, hfc o, if_pos ho]
    simp

/-- Witness for C8: a concrete index of four records, three of them sharing
object 0 (tags DATA/SNAME/LNAME) and one referencing object 1 (tag NID). -/
theorem cleanup_passes_witness :
    (pass2 (fun i => if i < 3 then ⟨(i : Int), 0⟩ else ⟨3, 1⟩) [0, 1, 2, 3]
      (pass1 (fun i => if i < 3 then ⟨(i : Int), 0⟩ else ⟨3, 1⟩) [0, 1, 2, 3]
        (fun j => { defaultObj with nid := (10 + j : Int) })) 0).nid =
      (refCount (fun i => if i < 3 then ⟨(i : Int), 0⟩ else ⟨3, 1⟩) [0, 1, 2, 3] 0 : Int) ∧
    1 ≤ refCount (fun i => if i < 3 then ⟨(i : Int), 0⟩ else ⟨3, 1⟩) [0, 1, 2, 3] 0 ∧
    refCount (fun i => if i < 3 then ⟨(i : Int), 0⟩ else ⟨3, 1⟩) [0, 1, 2, 3] 0 ≤ 4 ∧
    (pass3 (fun i => if i < 3 then ⟨(i : Int), 0⟩ else ⟨3, 1⟩) [0, 1, 2, 3]
      (pass2 (fun i => if i < 3 then ⟨(i : Int), 0⟩ else ⟨3, 1⟩) [0, 1, 2, 3]
        (pass1 (fun i => if i < 3 then ⟨(i : Int), 0⟩ else ⟨3, 1⟩) [0, 1, 2, 3]
          (fun j => { defaultObj with nid := (10 + j : Int) })))).freedRecs = [0, 1, 2, 3].length ∧
    (pass3 (fun i => if i < 3 then ⟨(i : Int), 0⟩ else ⟨3, 1⟩) [0, 1, 2, 3]
      (pass2 (fun i => if i < 3 then ⟨(i : Int), 0⟩ else ⟨3, 1⟩) [0, 1, 2, 3]
        (pass1 (fun i => if i < 3 then ⟨(i : Int), 0⟩ else ⟨3, 1⟩) [0, 1, 2, 3]
          (fun j => { defaultObj with nid := (10 + j : Int) })))).freed.count 0 = 1 :=
  cleanup_passes (fun i => if i < 3 then ⟨(i : Int), 0⟩ else ⟨3, 1⟩) [0, 1, 2, 3]
    (fun j => { defaultObj with nid := (10 + j : Int) }) 0 (by decide) (by decide)

/-! C2 and C5: the shape of the dotted-form output.  `arcsTail vs` is the
text of the non-initial arcs (a dot before each); `outList first vs` is
everything the emission loop writes for the remaining sub-identifiers `vs`
given the state of the `first` flag. -/

/-- The bytes emitted for a list of non-initial arcs. -/
def arcsTail (vs : List Nat) : List Nat := (vs.map (fun v => 46 :: decRepr v)).flatten

/-- The bytes emitted by the rest of the loop: with `first` still set, the
leading digit, the dot and the split remainder come first. -/
def outList : Bool → List Nat → List Nat
  | false, vs => arcsTail vs
  | true, [] => []
  | true, v :: vs =>
    (48 + (firstSplit v).1) :: 46 :: (decRepr (firstSplit v).2 ++ arcsTail vs)

theorem arcsTail_cons (v : Nat) (vs : List Nat) :
    arcsTail (v :: vs) = 46 :: (decRepr v ++ arcsTail vs) := by
  simp [arcsTail]

theorem decRepr_single (n : Nat) (h : n < 10) : decRepr n = [48 + n] := by
  rw [decRepr_eq, if_pos h]

theorem firstSplit_fst_lt (v : Nat) : (firstSplit v).1 < 10 := by
  rw [firstSplit]
  by_cases h : 80 ≤ v
  · rw [if_pos h]
    norm_num
  · rw [if_neg h]
    show v / 40 < 10
    omega

theorem outList_true_eq (vs : List Nat) :
    outList true vs = dottedBytes (splitFirst vs) := by
  cases vs with
  | nil => rfl
  | cons v vs =>
    rw [outList, splitFirst, dottedBytes]
    rw [decRepr_single _ (firstSplit_fst_lt v)]
    rw [show ((firstSplit v).2 :: vs).map (fun v => 46 :: decRepr v) =
      (fun v => 46 :: decRepr v) (firstSplit v).2 :: vs.map (fun v => 46 :: decRepr v)
      from rfl]
    rw [List.flatten_cons]
    rfl

theorem emitArc_n (bufp : Bool) (s : TxtSt) (l : Nat) :
    (emitArc bufp s l).n = s.n + 1 + (decRepr l).length := by
  rw [emitArc]
  by_cases h : (bufp = true) ∧ 0 < s.rem
  · rw [if_pos h]
    by_cases h2 : s.rem < (46 :: decRepr l).length
    · rw [if_pos h2]
      show s.n + (46 :: decRepr l).length = s.n + 1 + (decRepr l).length
      rw [List.length_cons]
      omega
    · rw [if_neg h2]
      show s.n + (46 :: decRepr l).length = s.n + 1 + (decRepr l).length
      rw [List.length_cons]
      omega
  · rw [if_neg h]
    show s.n + (46 :: decRepr l).length = s.n + 1 + (decRepr l).length
    rw [List.length_cons]
    omega

theorem emitFirst_n (bufp : Bool) (s : TxtSt) (v : Nat) :
    (emitFirst bufp s v).1.n = s.n + 1 := by
  rw [emitFirst]
  by_cases h : (bufp = true) ∧ 1 < s.rem
  · rw [if_pos h]
  · rw [if_neg h]

theorem emitFirst_snd (bufp : Bool) (s : TxtSt) (v : Nat) :
    (emitFirst bufp s v).2 = (firstSplit v).2 := rfl

/-- The return value of the emission loop on an accepted byte string: the
running length `n` plus the full length of the text still to be emitted,
regardless of the buffer, its capacity, or truncation. -/
theorem obj2txtGo_ret (bufp : Bool) :
    ∀ (p : List Nat) (acc : Nat) (s : TxtSt) (first : Bool) (vs : List Nat),
    decodeGo acc p = some vs →
    (obj2txtGo bufp s first acc p).2 = ((s.n + (outList first vs).length : Nat) : Int) := by
  intro p
  induction p with
  | nil =>
    intro acc s first vs h
    have hv : vs = [] := by
      rw [decodeGo] at h
      exact (Option.some.inj h).symm
    subst hv
    rw [obj2txtGo]
    cases first with
    | true => simp [outList]
    | false => simp [outList, arcsTail]
  | cons c rest ih =>
    intro acc s first vs h
    rw [decodeGo] at h
    rw [obj2txtGo]
    by_cases h1 : rest = [] ∧ 128 ≤ c
    · rw [if_pos h1] at h
      exact absurd h (by simp)
    · rw [if_neg h1] at h ⊢
      by_cases h2 : c < 128
      · rw [if_pos h2] at h ⊢
        obtain ⟨vs', hvs', hv⟩ : ∃ vs', decodeGo 0 rest = some vs' ∧
            vs = (acc + c % 128) :: vs' := by
          cases hd : decodeGo 0 rest with
          | none => rw [hd] at h; exact absurd h (by simp)
          | some vs' =>
            rw [hd] at h
            exact ⟨vs', rfl, by simpa using h.symm⟩
        subst hv
        cases first with
        | true =>
          simp only [if_true]
          rw [ih 0 _ false vs' hvs']
          rw [emitArc_n, emitFirst_n, emitFirst_snd]
          rw [outList, outList, List.length_cons, List.length_cons,
            List.length_append]
          omega
        | false =>
          simp only [Bool.false_eq_true, if_false]
          rw [ih 0 _ false vs' hvs']
          rw [emitArc_n]
          rw [outList, outList, arcsTail_cons, List.length_cons,
            List.length_append]
          omega
      · rw [if_neg h2] at h ⊢
        exact ih _ s first vs h

/-- The null-termination invariant of the output buffer: the cursor fits,
the next write position already holds a NUL while capacity remains, and a
NUL exists somewhere in the buffer. -/
def NullInv (s : TxtSt) : Prop :=
  s.off + s.rem ≤ s.buf.length ∧
  (0 < s.rem → s.buf.getD s.off 1 = 0) ∧
  ∃ i, i < s.buf.length ∧ s.buf.getD i 1 = 0

theorem getD_snoc_zero (A : List Nat) (d : Nat) : (A ++ [0]).getD A.length d = 0 := by
  rw [List.getD_eq_getElem?_getD, List.getElem?_append, if_neg (lt_irrefl _)]
  simp

theorem strlcpyAt_nul (buf : List Nat) (off rem : Nat) (src : List Nat)
    (h1 : 0 < rem) (h2 : off + rem ≤ buf.length) :
    (strlcpyAt buf off rem src).getD (off + min (rem - 1) src.length) 1 = 0 ∧
    off + min (rem - 1) src.length < buf.length := by
  have hw : min (rem - 1) src.length = (src.take (rem - 1)).length := by
    rw [List.length_take, Nat.min_comm]
  have hlt : off + min (rem - 1) src.length < buf.length := by
    have : min (rem - 1) src.length ≤ rem - 1 := Nat.min_le_left _ _
    omega
  refine ⟨?_, hlt⟩
  rw [strlcpyAt, if_neg (by omega), writeList_getD]
  rw [if_pos ⟨by omega, by
    rw [List.length_append, ← hw]
    simp only [List.length_singleton]
    omega, hlt⟩]
  rw [Nat.add_sub_cancel_left, hw]
  exact getD_snoc_zero _ _

theorem emitArc_inv (bufp : Bool) (s : TxtSt) (l : Nat) (h : NullInv s) :
    NullInv (emitArc bufp s l) ∧ (emitArc bufp s l).buf.length = s.buf.length := by
  obtain ⟨hfit, hnext, i0, hi0, hz0⟩ := h
  rw [emitArc]
  by_cases hb : (bufp = true) ∧ 0 < s.rem
  · rw [if_pos hb]
    obtain ⟨hnul, hlt⟩ := strlcpyAt_nul s.buf s.off s.rem (46 :: decRepr l) hb.2 hfit
    have hlen : (strlcpyAt s.buf s.off s.rem (46 :: decRepr l)).length = s.buf.length := by
      rw [strlcpyAt]
      by_cases hz : s.rem = 0
      · rw [if_pos hz]
      · rw [if_neg hz, writeList_length]
    by_cases h2 : s.rem < (46 :: decRepr l).length
    · rw [if_pos h2]
      refine ⟨⟨?_, ?_, ?_⟩, hlen⟩
      · show s.off + s.rem + 0 ≤ _
        rw [hlen]
        omega
      · intro hc
        exact absurd hc (by simp)
      · exact ⟨s.off + min (s.rem - 1) (46 :: decRepr l).length, by rw [hlen]; exact hlt, hnul⟩
    · rw [if_neg h2]
      have hmin : min (s.rem - 1) (46 :: decRepr l).length = (46 :: decRepr l).length ∨
          (s.rem - (46 :: decRepr l).length = 0 ∧
            min (s.rem - 1) (46 :: decRepr l).length = s.rem - 1) := by
        by_cases he : s.rem = (46 :: decRepr l).length
        · right
          constructor
          · omega
          · rw [Nat.min_eq_left (by omega)]
        · left
          rw [Nat.min_eq_right (by omega)]
      refine ⟨⟨?_, ?_, ?_⟩, hlen⟩
      · show s.off + (46 :: decRepr l).length + (s.rem - (46 :: decRepr l).length) ≤ _
        rw [hlen]
        omega
      · intro hc
        have hc' : 0 < s.rem - (46 :: decRepr l).length := hc
        show (strlcpyAt s.buf s.off s.rem (46 :: decRepr l)).getD
          (s.off + (46 :: decRepr l).length) 1 = 0
        have hmm : min (s.rem - 1) (46 :: decRepr l).length = (46 :: decRepr l).length := by
          rcases hmin with hm | ⟨hm1, _⟩
          · exact hm
          · omega
        rw [← hmm]
        exact hnul
      · exact ⟨s.off + min (s.rem - 1) (46 :: decRepr l).length, by rw [hlen]; exact hlt, hnul⟩
  · rw [if_neg hb]
    exact ⟨⟨hfit, hnext, i0, hi0, hz0⟩, rfl⟩

theorem emitFirst_inv (bufp : Bool) (s : TxtSt) (v : Nat) (h : NullInv s) :
    NullInv (emitFirst bufp s v).1 ∧ (emitFirst bufp s v).1.buf.length = s.buf.length := by
  obtain ⟨hfit, hnext, i0, hi0, hz0⟩ := h
  rw [emitFirst]
  by_cases hb : (bufp = true) ∧ 1 < s.rem
  · rw [if_pos hb]
    have hlen : ((s.buf.set s.off (48 + (firstSplit v).1)).set (s.off + 1) 0).length
        = s.buf.length := by
      rw [List.length_set, List.length_set]
    have hlt : s.off + 1 < s.buf.length := by omega
    have hz : ((s.buf.set s.off (48 + (firstSplit v).1)).set (s.off + 1) 0).getD
        (s.off + 1) 1 = 0 := by
      rw [getD_set, if_pos ⟨rfl, by rw [List.length_set]; exact hlt⟩]
    refine ⟨⟨?_, fun _ => hz, s.off + 1, by rw [hlen]; exact hlt, hz⟩, hlen⟩
    show s.off + 1 + (s.rem - 1) ≤ _
    rw [hlen]
    omega
  · rw [if_neg hb]
    exact ⟨⟨hfit, hnext, i0, hi0, hz0⟩, rfl⟩

/-- The emission loop preserves the null-termination invariant and the
buffer's length, on every path including the error exits. -/
theorem obj2txtGo_inv (bufp : Bool) :
    ∀ (p : List Nat) (acc : Nat) (s : TxtSt) (first : Bool), NullInv s →
    NullInv (obj2txtGo bufp s first acc p).1 ∧
    (obj2txtGo bufp s first acc p).1.buf.length = s.buf.length := by
  intro p
  induction p with
  | nil =>
    intro acc s first h
    exact ⟨h, rfl⟩
  | cons c rest ih =>
    intro acc s first h
    rw [obj2txtGo]
    by_cases h1 : rest = [] ∧ 128 ≤ c
    · rw [if_pos h1]
      exact ⟨h, rfl⟩
    · rw [if_neg h1]
      by_cases h2 : c < 128
      · rw [if_pos h2]
        cases first with
        | true =>
          simp only [if_true]
          obtain ⟨hf1, hf2⟩ := emitFirst_inv bufp s (acc + c % 128) h
          obtain ⟨ha1, ha2⟩ := emitArc_inv bufp (emitFirst bufp s (acc + c % 128)).1
            (emitFirst bufp s (acc + c % 128)).2 hf1
          obtain ⟨hg1, hg2⟩ := ih 0 _ false ha1
          exact ⟨hg1, by rw [hg2, ha2, hf2]⟩
        | false =>
          simp only [Bool.false_eq_true, if_false]
          obtain ⟨ha1, ha2⟩ := emitArc_inv bufp s (acc + c % 128) h
          obtain ⟨hg1, hg2⟩ := ih 0 _ false ha1
          exact ⟨hg1, by rw [hg2, ha2]⟩
      · rw [if_neg h2]
        exact ih _ _ first h

/-- C5 — for every object whose conversion succeeds and every buffer of
capacity at least 1 (including capacities smaller than the output),
`OBJ_obj2txt` leaves the buffer NUL-terminated and returns the full length
of the untruncated output string, whether or not it fit. -/
theorem obj2txt_truncation (B : BuiltinTable) (st : RegState) (ob : Obj)
    (d out : List Nat) (cap : Nat) (buf0 : List Nat) (no_name : Bool)
    (hd : ob.data = some d)
    (hout : obj2txtFullOut B st true ob no_name = some out)
    (hcap : 1 ≤ cap) (hbuf : buf0.length = cap) :
    (OBJ_obj2txt B st true true cap buf0 (some ob) no_name).2 = (out.length : Int) ∧
    ∃ i, i < cap ∧
      ((OBJ_obj2txt B st true true cap buf0 (some ob) no_name).1).getD i 1 = 0 := by
  have hb0 : 0 < buf0.length := by omega
  have hset : (if True ∧ 0 < cap then buf0.set 0 0 else buf0)
      = buf0.set 0 0 := if_pos ⟨trivial, by omega⟩
  have hb1 : (buf0.set 0 0).length = cap := by rw [List.length_set, hbuf]
  have hz1 : (buf0.set 0 0).getD 0 1 = 0 := by
    rw [getD_set, if_pos ⟨rfl, hb0⟩]
  cases hnm : obj2txtName B st true ob no_name with
  | some sname =>
    simp only [obj2txtFullOut, hd, hnm] at hout
    have hout' : out = strBytes sname := (Option.some.inj hout).symm
    simp only [OBJ_obj2txt, hd, hnm, hset, if_true]
    refine ⟨by rw [hout'], ?_⟩
    obtain ⟨hnul, hlt⟩ := strlcpyAt_nul (buf0.set 0 0) 0 cap (strBytes sname)
      (by omega) (by omega)
    exact ⟨0 + min (cap - 1) (strBytes sname).length, by omega, hnul⟩
  | none =>
    simp only [obj2txtFullOut, hd, hnm] at hout
    by_cases hlen : 586 < d.length
    · rw [if_pos hlen] at hout
      exact absurd hout (by simp)
    · rw [if_neg hlen] at hout
      obtain ⟨vs, hvs, hout'⟩ : ∃ vs, decodeSubIds d = some vs ∧
          out = dottedBytes (splitFirst vs) := by
        cases hdec : decodeSubIds d with
        | none => rw [hdec] at hout; exact absurd hout (by simp)
        | some vs =>
          rw [hdec] at hout
          exact ⟨vs, rfl, by simpa using hout.symm⟩
      have hinv : NullInv ⟨buf0.set 0 0, 0, cap, 0⟩ := by
        refine ⟨?_, fun _ => hz1, 0, ?_, hz1⟩
        · show 0 + cap ≤ (buf0.set 0 0).length
          omega
        · show 0 < (buf0.set 0 0).length
          omega
      obtain ⟨⟨_, _, i, hi, hzi⟩, hglen⟩ :=
        obj2txtGo_inv true d 0 ⟨buf0.set 0 0, 0, cap, 0⟩ true hinv
      have hret := obj2txtGo_ret true d 0 ⟨buf0.set 0 0, 0, cap, 0⟩ true vs hvs
      simp only [OBJ_obj2txt, hd, hnm, hset, if_neg hlen]
      constructor
      · rw [hret, hout', ← outList_true_eq]
        show (((0 : Nat) + (outList true vs).length : Nat) : Int) =
          ((outList true vs).length : Int)
        omega
      · refine ⟨i, ?_, hzi⟩
        have : (obj2txtGo true ⟨buf0.set 0 0, 0, cap, 0⟩ true 0 d).1.buf.length = cap := by
          rw [hglen]
          exact hb1
        omega

/-- Witness for C5: the DER of `1.2.840.113549` against a 5-byte buffer: the
output would be 14 characters, the return value is 14, and the buffer holds
the NUL-terminated prefix `1.2.`. -/
theorem obj2txt_truncation_witness :
    (OBJ_obj2txt bigB emptyState true true 5 [7, 7, 7, 7, 7]
      (some (wrapDer [42, 134, 72, 134, 247, 13])) true).2 =
      ((dottedBytes (splitFirst [42, 840, 113549])).length : Int) ∧
    ∃ i, i < 5 ∧
      ((OBJ_obj2txt bigB emptyState true true 5 [7, 7, 7, 7, 7]
        (some (wrapDer [42, 134, 72, 134, 247, 13])) true).1).getD i 1 = 0 :=
  obj2txt_truncation bigB emptyState (wrapDer [42, 134, 72, 134, 247, 13])
    [42, 134, 72, 134, 247, 13] (dottedBytes (splitFirst [42, 840, 113549]))
    5 [7, 7, 7, 7, 7] true rfl (by rfl) (by norm_num) (by rfl)

/-! C2: exact buffer contents when the capacity suffices. -/

theorem set_at_append (W : List Nat) (x v : Nat) : ∀ (T : List Nat),
    (W ++ x :: T).set W.length v = W ++ v :: T := by
  induction W with
  | nil => intro T; rfl
  | cons w ws ih =>
    intro T
    rw [List.cons_append, List.length_cons, List.set_cons_succ, ih, List.cons_append]

theorem take_at_append (W : List Nat) (T : List Nat) :
    (W ++ T).take W.length = W := List.take_left W T

theorem drop_at_append (W : List Nat) (T : List Nat) (k : Nat) :
    (W ++ T).drop (W.length + k) = T.drop k := List.drop_append k

/-- The content invariant of the emitter: everything written so far (`W`),
then the NUL, then the untouched tail; the cursor sits on the NUL and the
remaining capacity is exactly the distance to the end of the buffer. -/
def ContentInv (s : TxtSt) (W T : List Nat) : Prop :=
  s.buf = W ++ 0 :: T ∧ s.off = W.length ∧ s.off + s.rem = s.buf.length

theorem emitArc_content (s : TxtSt) (l : Nat) (W T : List Nat)
    (h : ContentInv s W T)
    (hrem : (46 :: decRepr l).length + 1 ≤ s.rem) :
    ContentInv (emitArc true s l) (W ++ 46 :: decRepr l)
      (T.drop (46 :: decRepr l).length) := by
  obtain ⟨hb, ho, hr⟩ := h
  have hlen : s.buf.length = W.length + 1 + T.length := by
    rw [hb, List.length_append, List.length_cons]
    omega
  rw [emitArc]
  rw [if_pos ⟨rfl, by omega⟩, if_neg (by omega)]
  have htake : (46 :: decRepr l).take (s.rem - 1) = 46 :: decRepr l :=
    List.take_all_of_le (by omega)
  have hsp : s.off + ((46 :: decRepr l) ++ [0]).length ≤ s.buf.length := by
    simp only [List.length_append, List.length_cons, List.length_nil]
    rw [List.length_cons] at hrem
    omega
  have hw : strlcpyAt s.buf s.off s.rem (46 :: decRepr l)
      = (W ++ 46 :: decRepr l) ++ 0 :: T.drop (46 :: decRepr l).length := by
    rw [strlcpyAt, if_neg (by omega), htake, writeList_splice _ _ _ hsp]
    rw [hb, ho, take_at_append]
    have hlen2 : ((46 :: decRepr l) ++ [0]).length = (46 :: decRepr l).length + 1 := by
      simp
    rw [hlen2, drop_at_append, List.drop_succ_cons]
    simp
  refine ⟨hw, ?_, ?_⟩
  · show s.off + (46 :: decRepr l).length = (W ++ 46 :: decRepr l).length
    rw [ho, List.length_append]
  · show s.off + (46 :: decRepr l).length + (s.rem - (46 :: decRepr l).length)
      = (strlcpyAt s.buf s.off s.rem (46 :: decRepr l)).length
    rw [strlcpyAt, if_neg (by omega), writeList_length]
    omega

theorem emitFirst_content (s : TxtSt) (v : Nat) (W T : List Nat)
    (h : ContentInv s W T) (hrem : 2 ≤ s.rem) :
    ContentInv (emitFirst true s v).1 (W ++ [48 + (firstSplit v).1]) (T.drop 1) := by
  obtain ⟨hb, ho, hr⟩ := h
  have hlen : s.buf.length = W.length + 1 + T.length := by
    rw [hb, List.length_append, List.length_cons]
    omega
  obtain ⟨t, T2, hT⟩ : ∃ t T2, T = t :: T2 := by
    cases T with
    | nil =>
      exfalso
      rw [List.length_nil] at hlen
      omega
    | cons t T2 => exact ⟨t, T2, rfl⟩
  subst hT
  rw [emitFirst]
  rw [if_pos ⟨rfl, by omega⟩]
  have hset1 : s.buf.set s.off (48 + (firstSplit v).1)
      = W ++ (48 + (firstSplit v).1) :: t :: T2 := by
    rw [hb, ho, set_at_append]
  have hset2 : (W ++ (48 + (firstSplit v).1) :: t :: T2).set (s.off + 1) 0
      = (W ++ [48 + (firstSplit v).1]) ++ 0 :: T2 := by
    have e1 : W ++ (48 + (firstSplit v).1) :: t :: T2
        = (W ++ [48 + (firstSplit v).1]) ++ t :: T2 := by simp
    have e2 : s.off + 1 = (W ++ [48 + (firstSplit v).1]).length := by
      rw [ho]
      simp
    rw [e1, e2, set_at_append]
  refine ⟨?_, ?_, ?_⟩
  · show (s.buf.set s.off (48 + (firstSplit v).1)).set (s.off + 1) 0
      = (W ++ [48 + (firstSplit v).1]) ++ 0 :: List.drop 1 (t :: T2)
    rw [hset1, hset2]
    rfl
  · show s.off + 1 = (W ++ [48 + (firstSplit v).1]).length
    rw [ho]
    simp
  · show s.off + 1 + (s.rem - 1)
      = ((s.buf.set s.off (48 + (firstSplit v).1)).set (s.off + 1) 0).length
    rw [List.length_set, List.length_set]
    omega

/-- On an accepted byte string with enough capacity for the whole output and
its terminator, the emission loop writes exactly the remaining output and
the NUL, leaving the rest of the buffer untouched. -/
theorem obj2txtGo_content :
    ∀ (p : List Nat) (acc : Nat) (s : TxtSt) (first : Bool) (vs W T : List Nat),
    decodeGo acc p = some vs →
    ContentInv s W T →
    (outList first vs).length + 1 ≤ s.rem →
    ContentInv (obj2txtGo true s first acc p).1 (W ++ outList first vs)
      (T.drop (outList first vs).length) := by
  intro p
  induction p with
  | nil =>
    intro acc s first vs W T hdec hinv hrem
    have hv : vs = [] := by
      rw [decodeGo] at hdec
      exact (Option.some.inj hdec).symm
    subst hv
    have hout : outList first ([] : List Nat) = [] := by
      cases first with
      | true => rfl
      | false => rfl
    rw [obj2txtGo, hout]
    simpa using hinv
  | cons c rest ih =>
    intro acc s first vs W T hdec hinv hrem
    rw [decodeGo] at hdec
    rw [obj2txtGo]
    by_cases h1 : rest = [] ∧ 128 ≤ c
    · rw [if_pos h1] at hdec
      exact absurd hdec (by simp)
    · rw [if_neg h1] at hdec ⊢
      by_cases h2 : c < 128
      · rw [if_pos h2] at hdec ⊢
        obtain ⟨vs2, hvs2, hv⟩ : ∃ vs2, decodeGo 0 rest = some vs2 ∧
            vs = (acc + c % 128) :: vs2 := by
          cases hd : decodeGo 0 rest with
          | none => rw [hd] at hdec; exact absurd hdec (by simp)
          | some vs2 =>
            rw [hd] at hdec
            exact ⟨vs2, rfl, by simpa using hdec.symm⟩
        subst hv
        have houtF : outList false vs2 = arcsTail vs2 := rfl
        cases first with
        | true =>
          simp only [if_true]
          have houtT : outList true ((acc + c % 128) :: vs2)
              = (48 + (firstSplit (acc + c % 128)).1)
                :: 46 :: (decRepr (firstSplit (acc + c % 128)).2 ++ arcsTail vs2) := rfl
          have hlT : (outList true ((acc + c % 128) :: vs2)).length
              = 2 + (decRepr (firstSplit (acc + c % 128)).2).length
                + (arcsTail vs2).length := by
            rw [houtT, List.length_cons, List.length_cons, List.length_append]
            omega
          have hf := emitFirst_content s (acc + c % 128) W T hinv (by omega)
          have hfr : (emitFirst true s (acc + c % 128)).1.rem = s.rem - 1 := by
        -- the branch is forced: the capacity bound keeps more than one byte free
            rw [emitFirst, if_pos ⟨rfl, by omega⟩]
          have ha := emitArc_content (emitFirst true s (acc + c % 128)).1
            (firstSplit (acc + c % 128)).2 _ _ hf
            (by rw [hfr, List.length_cons]; omega)
          have hastep : emitArc true (emitFirst true s (acc + c % 128)).1
              (emitFirst true s (acc + c % 128)).2
              = emitArc true (emitFirst true s (acc + c % 128)).1
                (firstSplit (acc + c % 128)).2 := by
            rw [emitFirst_snd]
          have har : (emitArc true (emitFirst true s (acc + c % 128)).1
              (firstSplit (acc + c % 128)).2).rem
              = s.rem - 1 - (46 :: decRepr (firstSplit (acc + c % 128)).2).length := by
            rw [emitArc, if_pos ⟨rfl, by rw [hfr]; rw [List.length_cons] at *; omega⟩,
              if_neg (by rw [hfr, List.length_cons]; rw [List.length_cons] at *; omega)]
            rw [hfr]
          have h5 := hrem
          rw [hlT] at h5
          have hbound : (outList false vs2).length + 1
              ≤ (emitArc true (emitFirst true s (acc + c % 128)).1
                (firstSplit (acc + c % 128)).2).rem := by
            rw [har, houtF, List.length_cons]
            omega
          have hg := ih 0 _ false vs2 _ _ hvs2 ha hbound
          rw [hastep]
          obtain ⟨hgb, hgo, hgr⟩ := hg
          refine ⟨?_, ?_, hgr⟩
          · rw [hgb, houtF, houtT]
            rw [List.drop_drop, List.drop_drop]
            have e1 : W ++ [48 + (firstSplit (acc + c % 128)).1]
                ++ 46 :: decRepr (firstSplit (acc + c % 128)).2 ++ arcsTail vs2
                = W ++ (48 + (firstSplit (acc + c % 128)).1)
                  :: 46 :: (decRepr (firstSplit (acc + c % 128)).2 ++ arcsTail vs2) := by
              simp
            rw [e1]
            congr 1
            rw [List.length_cons, List.length_cons, List.length_cons,
              List.length_append]
            have e2 : 1 + ((decRepr (firstSplit (acc + c % 128)).2).length + 1
                + (arcsTail vs2).length)
                = (decRepr (firstSplit (acc + c % 128)).2).length
                  + (arcsTail vs2).length + 1 + 1 := by omega
            rw [e2]
          · rw [hgo, houtT, houtF]
            simp only [List.length_append, List.length_cons, List.length_singleton,
              List.length_nil]
            omega
        | false =>
          simp only [Bool.false_eq_true, if_false]
          have houtC : outList false ((acc + c % 128) :: vs2)
              = 46 :: (decRepr (acc + c % 128) ++ arcsTail vs2) := by
            rw [show outList false ((acc + c % 128) :: vs2)
              = arcsTail ((acc + c % 128) :: vs2) from rfl, arcsTail_cons]
          have hlC : (outList false ((acc + c % 128) :: vs2)).length
              = 1 + (decRepr (acc + c % 128)).length + (arcsTail vs2).length := by
            rw [houtC, List.length_cons, List.length_append]
            omega
          have hrem2 : (46 :: decRepr (acc + c % 128)).length + 1 ≤ s.rem := by
            rw [List.length_cons]
            omega
          have ha := emitArc_content s (acc + c % 128) W T hinv hrem2
          have har : (emitArc true s (acc + c % 128)).rem
              = s.rem - (46 :: decRepr (acc + c % 128)).length := by
            rw [emitArc, if_pos ⟨rfl, by rw [List.length_cons] at hrem2; omega⟩,
              if_neg (by omega)]
          have h5 := hrem
          rw [hlC] at h5
          have hbound : (outList false vs2).length + 1
              ≤ (emitArc true s (acc + c % 128)).rem := by
            rw [har, houtF, List.length_cons]
            omega
          have hg := ih 0 _ false vs2 _ _ hvs2 ha hbound
          obtain ⟨hgb, hgo, hgr⟩ := hg
          refine ⟨?_, ?_, hgr⟩
          · rw [hgb, houtF, houtC]
            rw [List.drop_drop]
            have e1 : W ++ 46 :: decRepr (acc + c % 128) ++ arcsTail vs2
                = W ++ 46 :: (decRepr (acc + c % 128) ++ arcsTail vs2) := by
              simp
            rw [e1]
            congr 1
            rw [List.length_cons, List.length_cons, List.length_append]
            have e2 : (decRepr (acc + c % 128)).length + 1 + (arcsTail vs2).length
                = (decRepr (acc + c % 128)).length + (arcsTail vs2).length + 1 := by omega
            rw [e2]
          · rw [hgo, houtC, houtF]
            simp only [List.length_append, List.length_cons]
            omega
      · rw [if_neg h2] at hdec ⊢
        exact ih _ s first vs W T hdec hinv hrem

/-- C2 — on every DER byte string accepted by the dotted-form branch of
`OBJ_obj2txt` (`no_name` set), the first decoded sub-identifier `v0` yields
the first two output arcs `(a, b)` with `a = v0 / 40` and `b = v0 % 40` when
`v0 < 80`, and `a = 2`, `b = v0 - 80` otherwise: with enough capacity the
buffer starts with the decimal of `a`, a dot, and the decimal of `b`.  The
arithmetic is exact (`Nat`), so the sub-identifier may exceed any machine
word, covering the `use_bn` promotion. -/
theorem obj2txt_first_arcs (B : BuiltinTable) (st : RegState) (ob : Obj)
    (d : List Nat) (v0 : Nat) (vs : List Nat) (cap : Nat) (buf0 : List Nat)
    (hd : ob.data = some d)
    (hdec : decodeSubIds d = some (v0 :: vs))
    (hlen : d.length ≤ 586)
    (hbuf : buf0.length = cap)
    (hcap : (dottedBytes (splitFirst (v0 :: vs))).length + 1 ≤ cap) :
    ∃ tail,
      (OBJ_obj2txt B st true true cap buf0 (some ob) true).1
        = decRepr (if v0 < 80 then v0 / 40 else 2)
          ++ 46 :: decRepr (if v0 < 80 then v0 % 40 else v0 - 80) ++ tail := by
  have hcap' : (outList true (v0 :: vs)).length + 1 ≤ cap := by
    rw [outList_true_eq]
    exact hcap
  have hc1 : 1 ≤ cap := by omega
  have hnm : obj2txtName B st true ob true = none := by
    simp only [obj2txtName]
    rw [if_neg (fun h => h.1 trivial)]
  obtain ⟨b0, bs, hb0⟩ : ∃ b0 bs, buf0 = b0 :: bs := by
    cases buf0 with
    | nil => rw [List.length_nil] at hbuf; omega
    | cons b0 bs => exact ⟨b0, bs, rfl⟩
  subst hb0
  have hset : (if True ∧ 0 < cap then (b0 :: bs).set 0 0 else b0 :: bs)
      = (b0 :: bs).set 0 0 := if_pos ⟨trivial, by omega⟩
  have hinv : ContentInv ⟨(b0 :: bs).set 0 0, 0, cap, 0⟩ [] bs := by
    refine ⟨rfl, rfl, ?_⟩
    show 0 + cap = ((b0 :: bs).set 0 0).length
    rw [List.length_set]
    omega
  have hcont := obj2txtGo_content d 0 ⟨(b0 :: bs).set 0 0, 0, cap, 0⟩ true
    (v0 :: vs) [] bs hdec hinv
    (show (outList true (v0 :: vs)).length + 1 ≤ cap from hcap')
  obtain ⟨hcb, _, _⟩ := hcont
  simp only [OBJ_obj2txt, hd, hnm, hset, if_true]
  rw [if_neg (by omega : ¬ 586 < d.length)]
  refine ⟨arcsTail vs ++ 0 :: bs.drop (outList true (v0 :: vs)).length, ?_⟩
  have hA : (if v0 < 80 then v0 / 40 else 2) = (firstSplit v0).1 := by
    rw [firstSplit]
    by_cases h : 80 ≤ v0
    · rw [if_neg (by omega : ¬ v0 < 80), if_pos h]
    · rw [if_pos (by omega : v0 < 80), if_neg h]
  have hB : (if v0 < 80 then v0 % 40 else v0 - 80) = (firstSplit v0).2 := by
    rw [firstSplit]
    by_cases h : 80 ≤ v0
    · rw [if_neg (by omega : ¬ v0 < 80), if_pos h]
    · rw [if_pos (by omega : v0 < 80), if_neg h]
      show v0 % 40 = v0 - v0 / 40 * 40
      omega
  rw [hcb, hA, hB, decRepr_single _ (firstSplit_fst_lt v0)]
  rw [show outList true (v0 :: vs)
    = (48 + (firstSplit v0).1) :: 46 :: (decRepr (firstSplit v0).2 ++ arcsTail vs)
    from rfl]
  simp

/-- Witness for C2: the one-byte DER `[42]` (OID 1.2) against a 5-byte
buffer: the first sub-identifier 42 is below 80 and splits into the arcs
`42 / 40 = 1` and `42 % 40 = 2`, so the buffer starts with `1.2`. -/
theorem obj2txt_first_arcs_witness :
    ∃ tail,
      (OBJ_obj2txt bigB emptyState true true 5 [7, 7, 7, 7, 7]
        (some (wrapDer [42])) true).1
        = decRepr (if 42 < 80 then 42 / 40 else 2)
          ++ 46 :: decRepr (if 42 < 80 then 42 % 40 else 42 - 80) ++ tail :=
  obj2txt_first_arcs bigB emptyState (wrapDer [42]) [42] 42 [] 5 [7, 7, 7, 7, 7]
    rfl (by rfl) (by norm_num) (by rfl) (by decide)

end ObjDat
